import Mathlib

/-!
Verification of the ExoGenesis-Omega analyzer core against its specification.

The Python sources under `src/analyzer/` are shallowly embedded here:
times, energies and confidences are modelled as exact rationals (`ℚ`),
Python lists as `List`, and fallible operations as `Option`.  Numpy
reductions (`mean`, `var`) are rational; a comparison against
`mean + c*std` (which involves a square root) is encoded by the
equivalent rational condition `d > 0 ∧ d^2 > c^2 * var` where
`d = x - mean`.
-/

/-! ### Kernel-computable rational arithmetic

The standard `ℚ` operations (`Rat.add`, `Rat.mul`, `Rat.inv`, …) are
`@[irreducible]`, so concrete runs of the embedded code could not be
checked by `decide`/`rfl`.  The wrappers below compute the same values
through `mkRat` (which does reduce); the `q*_eq` lemmas identify them
with the standard operations, so symbolic proofs can rewrite them away. -/

/-- Kernel-computable addition on `ℚ` (equal to `a + b`). -/
def qadd (a b : ℚ) : ℚ := mkRat (a.num * b.den + b.num * a.den) (a.den * b.den)

/-- Kernel-computable negation on `ℚ` (equal to `-a`). -/
def qneg (a : ℚ) : ℚ := mkRat (-a.num) a.den

/-- Kernel-computable subtraction on `ℚ` (equal to `a - b`). -/
def qsub (a b : ℚ) : ℚ := qadd a (qneg b)

/-- Kernel-computable multiplication on `ℚ` (equal to `a * b`). -/
def qmul (a b : ℚ) : ℚ := mkRat (a.num * b.num) (a.den * b.den)

/-- Kernel-computable inverse on `ℚ` (equal to `a⁻¹`, with `0⁻¹ = 0`). -/
def qinv (a : ℚ) : ℚ := mkRat (a.num.sign * a.den) a.num.natAbs

/-- Kernel-computable division on `ℚ` (equal to `a / b`, with `a/0 = 0`). -/
def qdiv (a b : ℚ) : ℚ := qmul a (qinv b)

/-- Kernel-computable absolute value on `ℚ` (equal to `|a|`). -/
def qabs (a : ℚ) : ℚ := if 0 ≤ a then a else qneg a

/-- Kernel-computable sum of a list of rationals (equal to `xs.sum`). -/
def qsum (xs : List ℚ) : ℚ := xs.foldr qadd 0

theorem rat_num_eq (a : ℚ) : (a.num : ℚ) = a * a.den := by
  have ha : ((a.den : ℚ)) ≠ 0 := by
    exact_mod_cast (Nat.cast_ne_zero (R := ℚ)).2 a.den_nz
  have h := Rat.num_div_den a
  exact (div_eq_iff ha).mp h

theorem qadd_eq (a b : ℚ) : qadd a b = a + b := by
  have ha : ((a.den : ℚ)) ≠ 0 := by
    exact_mod_cast (Nat.cast_ne_zero (R := ℚ)).2 a.den_nz
  have hb : ((b.den : ℚ)) ≠ 0 := by
    exact_mod_cast (Nat.cast_ne_zero (R := ℚ)).2 b.den_nz
  rw [qadd, Rat.mkRat_eq_div]
  push_cast
  field_simp
  rw [rat_num_eq a, rat_num_eq b]
  ring

theorem qneg_eq (a : ℚ) : qneg a = -a := by
  have ha : ((a.den : ℚ)) ≠ 0 := by
    exact_mod_cast (Nat.cast_ne_zero (R := ℚ)).2 a.den_nz
  rw [qneg, Rat.mkRat_eq_div]
  push_cast
  rw [neg_div, Rat.num_div_den]

theorem qsub_eq (a b : ℚ) : qsub a b = a - b := by
  rw [qsub, qadd_eq, qneg_eq, sub_eq_add_neg]

theorem qmul_eq (a b : ℚ) : qmul a b = a * b := by
  have ha : ((a.den : ℚ)) ≠ 0 := by
    exact_mod_cast (Nat.cast_ne_zero (R := ℚ)).2 a.den_nz
  have hb : ((b.den : ℚ)) ≠ 0 := by
    exact_mod_cast (Nat.cast_ne_zero (R := ℚ)).2 b.den_nz
  rw [qmul, Rat.mkRat_eq_div]
  push_cast
  field_simp
  rw [rat_num_eq a, rat_num_eq b]
  ring

theorem qinv_eq (a : ℚ) : qinv a = a⁻¹ := by
  rcases lt_trichotomy a.num 0 with h | h | h
  · have hsign : a.num.sign = -1 := Int.sign_eq_neg_one_of_neg h
    have habs : (a.num.natAbs : ℤ) = -a.num := Int.ofNat_natAbs_of_nonpos (le_of_lt h)
    have habsQ : ((a.num.natAbs : ℚ)) = -(a.num : ℚ) := by
      rw [Int.cast_natAbs]
      exact_mod_cast abs_of_neg h
    rw [qinv, Rat.mkRat_eq_div, hsign, Rat.inv_def', Rat.divInt_eq_div]
    push_cast
    rw [habsQ, div_neg]
    ring_nf
  · have ha0 : a = 0 := by
      have := Rat.num_eq_zero.mp h
      simpa using this
    simp [qinv, ha0]
  · have hsign : a.num.sign = 1 := Int.sign_eq_one_of_pos h
    have habs : (a.num.natAbs : ℤ) = a.num := Int.natAbs_of_nonneg (le_of_lt h)
    have habsQ : ((a.num.natAbs : ℚ)) = (a.num : ℚ) := by
      rw [Int.cast_natAbs]
      exact_mod_cast abs_of_pos h
    rw [qinv, Rat.mkRat_eq_div, hsign, Rat.inv_def', Rat.divInt_eq_div]
    push_cast
    rw [habsQ]
    ring_nf

theorem qdiv_eq (a b : ℚ) : qdiv a b = a / b := by
  rw [qdiv, qmul_eq, qinv_eq, div_eq_mul_inv]

theorem qabs_eq (a : ℚ) : qabs a = |a| := by
  rw [qabs]
  split
  · rw [abs_of_nonneg]; assumption
  · rw [qneg_eq, abs_of_neg]; linarith

theorem qsum_eq (xs : List ℚ) : qsum xs = xs.sum := by
  induction xs with
  | nil => rfl
  | cons x xs ih => simp [qsum, List.foldr] at ih ⊢; rw [qadd_eq, ih]

/-! ### Shared numeric helpers (numpy operations on rational lists) -/

/-- `max` on `ℚ` written with an explicit comparison (kernel-reducible,
unlike the lattice operation). -/
def ratMax (a b : ℚ) : ℚ := if a ≤ b then b else a

/-- `min` on `ℚ` written with an explicit comparison. -/
def ratMin (a b : ℚ) : ℚ := if a ≤ b then a else b

/-- `np.clip(x, lo, hi)`. -/
def npClip (x lo hi : ℚ) : ℚ := ratMin (ratMax x lo) hi

/-- `np.sign` on rationals. -/
def npSign (x : ℚ) : ℚ := if x > 0 then 1 else if x < 0 then -1 else 0

/-- `np.mean` of a list; the mean of an empty list is 0 in this model
(numpy produces NaN there; every use below is either guarded by a
non-emptiness check in the source or feeds a comparison that is then
irrelevant). -/
def npMean (xs : List ℚ) : ℚ := qdiv (qsum xs) xs.length

/-- `np.var` of a list (population variance, as numpy computes it). -/
def npVar (xs : List ℚ) : ℚ :=
  npMean (xs.map (fun x => qmul (qsub x (npMean xs)) (qsub x (npMean xs))))

theorem npMean_eq (xs : List ℚ) : npMean xs = xs.sum / xs.length := by
  rw [npMean, qdiv_eq, qsum_eq]

theorem ratMax_le {a b c : ℚ} (h1 : a ≤ c) (h2 : b ≤ c) : ratMax a b ≤ c := by
  unfold ratMax; split <;> assumption

theorem le_ratMax_right (a b : ℚ) : b ≤ ratMax a b := by
  unfold ratMax; split
  · exact le_refl b
  · linarith

theorem ratMin_le_right (a b : ℚ) : ratMin a b ≤ b := by
  unfold ratMin; split
  · assumption
  · exact le_refl b

theorem le_ratMin {a b c : ℚ} (h1 : c ≤ a) (h2 : c ≤ b) : c ≤ ratMin a b := by
  unfold ratMin; split <;> assumption

theorem npClip_le (x lo hi : ℚ) : npClip x lo hi ≤ hi := ratMin_le_right _ _

theorem le_npClip (x lo hi : ℚ) (h : lo ≤ hi) : lo ≤ npClip x lo hi :=
  le_ratMin (le_ratMax_right _ _) h

/-! ### `structure_detector.py`: data model -/

/-- `SectionType` enum from `structure_detector.py`. -/
inductive SectionType
  | INTRO | VERSE | PRE_CHORUS | CHORUS | BRIDGE | BREAKDOWN
  | BUILDUP | DROP | OUTRO | INSTRUMENTAL | UNKNOWN
  deriving DecidableEq, Repr

/-- The `.value` string of each `SectionType` member. -/
def SectionType.value : SectionType → String
  | .INTRO => "intro"
  | .VERSE => "verse"
  | .PRE_CHORUS => "pre_chorus"
  | .CHORUS => "chorus"
  | .BRIDGE => "bridge"
  | .BREAKDOWN => "breakdown"
  | .BUILDUP => "buildup"
  | .DROP => "drop"
  | .OUTRO => "outro"
  | .INSTRUMENTAL => "instrumental"
  | .UNKNOWN => "unknown"

/-- `Section` dataclass from `structure_detector.py`. -/
structure Section where
  section_type : SectionType
  start_time : ℚ
  end_time : ℚ
  energy : ℚ
  repetition : ℕ
  confidence : ℚ
  deriving DecidableEq, Repr

/-- `ClimaxPoint` dataclass from `structure_detector.py`. -/
structure ClimaxPoint where
  time : ℚ
  intensity : ℚ
  type : String
  deriving DecidableEq, Repr

/-! ### `emotion_mapper.py` -/

/-- `Emotion` enum from `emotion_mapper.py`. -/
inductive Emotion
  | JOY | TRIUMPH | EXCITEMENT | EUPHORIA
  | ANGER | INTENSITY | URGENCY | CHAOS
  | PEACE | TENDERNESS | HOPE | NOSTALGIA
  | SADNESS | MELANCHOLY | TENSION | DREAD
  | NEUTRAL
  deriving DecidableEq, Repr

/-- `EmotionPoint` dataclass from `emotion_mapper.py`. -/
structure EmotionPoint where
  time : ℚ
  emotion : Emotion
  intensity : ℚ
  valence : ℚ
  arousal : ℚ
  deriving DecidableEq, Repr

/-- A chord event, as consumed read-only by `EmotionMapper`
(`{time, duration, chord, confidence}`). -/
structure Chord where
  time : ℚ
  duration : ℚ
  chord : String
  confidence : ℚ
  deriving DecidableEq, Repr

/-- `EmotionArc` dataclass from `emotion_mapper.py`.  The
`emotional_range` field (an average of two standard deviations, hence
irrational in general) is referenced by no claim and is omitted from the
embedded record so that the model stays executable over `ℚ`. -/
structure EmotionArc where
  points : List EmotionPoint
  dominant_emotion : Emotion
  overall_valence : ℚ
  overall_arousal : ℚ
  deriving DecidableEq, Repr

/-- Python `'pat' in s` substring containment, on the char lists of the
two strings. -/
def strContains (s pat : String) : Bool :=
  (s.data.tails.any (fun t => pat.data.isPrefixOf t))

/-- `KEY_VALENCE` table (missing keys default to 0 at lookup). -/
def KEY_VALENCE : List (String × ℚ) :=
  [("C", mkRat 3 10), ("G", mkRat 35 100), ("D", mkRat 4 10),
   ("A", mkRat 3 10), ("E", mkRat 25 100), ("B", mkRat 2 10),
   ("F", mkRat 25 100), ("Bb", mkRat 15 100), ("Eb", mkRat 1 10),
   ("Ab", 0), ("Db", mkRat (-5) 100), ("F#", mkRat 15 100)]

/-- `MODE_VALENCE` table. -/
def MODE_VALENCE : List (String × ℚ) :=
  [("major", mkRat 3 10), ("minor", mkRat (-3) 10), ("dorian", mkRat (-1) 10),
   ("phrygian", mkRat (-4) 10), ("lydian", mkRat 4 10),
   ("mixolydian", mkRat 2 10), ("aeolian", mkRat (-25) 100),
   ("locrian", mkRat (-5) 10)]

/-- `CHORD_TENSION` table, already arranged in the order produced by
`sorted(CHORD_TENSION.items(), key=lambda x: -len(x[0]))` (stable sort
by decreasing suffix length, ties in dict insertion order). -/
def CHORD_TENSION_SORTED : List (String × ℚ) :=
  [("maj7", mkRat 15 100), ("sus2", mkRat 2 10), ("sus4", mkRat 25 100),
   ("dim", mkRat 6 10), ("aug", mkRat 5 10), ("m7", mkRat 2 10),
   ("m", mkRat 1 10), ("7", mkRat 3 10), ("5", mkRat 5 100), ("", 0)]

/-- Python `str.lower()` restricted to ASCII (all keys of `MODE_VALENCE`
are ASCII), written over the char list so that the kernel can evaluate
it (`String.toLower` goes through `String.mapAux`, which does not
reduce). -/
def pyLower (s : String) : String :=
  ⟨s.data.map (fun c =>
    if 'A' ≤ c && c ≤ 'Z' then Char.ofNat (c.toNat + 32) else c)⟩

/-- Association-list lookup with rational default 0 (`dict.get(k, 0.0)`). -/
def tableGet (tbl : List (String × ℚ)) (k : String) : ℚ :=
  match tbl.find? (fun kv => kv.1 = k) with
  | some kv => kv.2
  | none => 0

/-- `EmotionMapper._compute_base_valence`. -/
def compute_base_valence (key mode : String) : ℚ :=
  npClip (qadd (tableGet KEY_VALENCE key) (tableGet MODE_VALENCE (pyLower mode)))
    (-1) 1

/-- `EmotionMapper._get_section_at`: first section with
`start_time <= time < end_time`. -/
def get_section_at (time : ℚ) (sections : List Section) : Option Section :=
  sections.find? (fun s => s.start_time ≤ time ∧ time < s.end_time)

/-- Suffix lookup of the chord-tension loop body: first entry of
`CHORD_TENSION_SORTED` whose key is a suffix of the chord name. -/
def chordSuffixTension (name : String) : ℚ :=
  match CHORD_TENSION_SORTED.find? (fun kv => kv.1.data.isSuffixOf name.data) with
  | some kv => kv.2
  | none => 0

/-- `EmotionMapper._get_chord_tension_at`. -/
def get_chord_tension_at (time : ℚ) (chords : List Chord) : ℚ :=
  match chords.find? (fun c => c.time ≤ time ∧ time < qadd c.time c.duration) with
  | some c => chordSuffixTension c.chord
  | none => 0

/-- `EmotionMapper._compute_valence`. -/
def compute_valence (base_valence : ℚ) (sec : Option Section)
    (chord_tension energy : ℚ) : ℚ :=
  let v1 :=
    match sec with
    | some s =>
        let name := s.section_type.value
        if strContains name "chorus" || strContains name "drop" then
          qadd base_valence (mkRat 2 10)
        else if strContains name "breakdown" then
          qsub base_valence (mkRat 1 10)
        else if strContains name "bridge" then
          qsub base_valence (mkRat 5 100)
        else base_valence
    | none => base_valence
  let v2 := qsub v1 (qmul chord_tension (mkRat 3 10))
  let v3 :=
    if energy > mkRat 7 10 then qadd v2 (qmul (mkRat 1 10) (npSign v2)) else v2
  npClip v3 (-1) 1

/-- `EmotionMapper._compute_arousal`. -/
def compute_arousal (tempo energy : ℚ) (sec : Option Section) : ℚ :=
  let a0 : ℚ :=
    if tempo > 140 then mkRat 4 10
    else if tempo > 120 then mkRat 2 10
    else if tempo > 100 then 0
    else if tempo > 80 then mkRat (-2) 10
    else mkRat (-4) 10
  let a1 := qadd a0 (qmul (qsub energy (mkRat 5 10)) (mkRat 8 10))
  let a2 :=
    match sec with
    | some s =>
        let name := s.section_type.value
        if strContains name "drop" then qadd a1 (mkRat 3 10)
        else if strContains name "chorus" then qadd a1 (mkRat 2 10)
        else if strContains name "buildup" then qadd a1 (mkRat 15 100)
        else if strContains name "breakdown" || strContains name "intro" then
          qsub a1 (mkRat 2 10)
        else if strContains name "outro" then qsub a1 (mkRat 15 100)
        else a1
    | none => a1
  npClip a2 (-1) 1

/-- `EmotionMapper._map_to_emotion`. -/
def map_to_emotion (valence arousal : ℚ) : Emotion :=
  if arousal > mkRat 3 10 then
    if valence > mkRat 3 10 then
      if arousal > mkRat 7 10 then .EUPHORIA
      else if valence > mkRat 6 10 then .JOY
      else .EXCITEMENT
    else if valence < mkRat (-3) 10 then
      if arousal > mkRat 7 10 then .CHAOS
      else if valence < mkRat (-6) 10 then .ANGER
      else .INTENSITY
    else .URGENCY
  else if arousal < mkRat (-3) 10 then
    if valence > mkRat 3 10 then
      if valence > mkRat 6 10 then .PEACE else .TENDERNESS
    else if valence < mkRat (-3) 10 then
      if valence < mkRat (-6) 10 then .DREAD else .SADNESS
    else .MELANCHOLY
  else
    if valence > mkRat 3 10 then
      if valence > mkRat 5 10 then .HOPE else .NOSTALGIA
    else if valence < mkRat (-3) 10 then .TENSION
    else .NEUTRAL

/-- One smoothing step of `_smooth_emotions` (exponential smoothing with
factor `self.smoothing = 0.3`): blends the previously emitted point with
the next raw point and recomputes emotion and intensity. -/
def smoothStep (prev p : EmotionPoint) : EmotionPoint :=
  let v := qadd (qmul prev.valence (mkRat 3 10)) (qmul p.valence (mkRat 7 10))
  let a := qadd (qmul prev.arousal (mkRat 3 10)) (qmul p.arousal (mkRat 7 10))
  { time := p.time
    emotion := map_to_emotion v a
    intensity := qdiv (qadd (qabs v) (qabs a)) 2
    valence := v
    arousal := a }

/-- Loop body of `_smooth_emotions`, carrying the previously emitted
point. -/
def smoothAux (prev : EmotionPoint) : List EmotionPoint → List EmotionPoint
  | [] => []
  | p :: rest => smoothStep prev p :: smoothAux (smoothStep prev p) rest

/-- `EmotionMapper._smooth_emotions`: the first point passes through
unsmoothed; each later point blends with the previously emitted one.
(The Python `len < 2` early return coincides with the one-point case.) -/
def smooth_emotions : List EmotionPoint → List EmotionPoint
  | [] => []
  | p :: rest => p :: smoothAux p rest

/-- Energy sampled at integer second `i`
(`energy_curve[min(i * 10 // 10, len - 1)] if len > 0 else 0.5`). -/
def energyAt (energy_curve : List ℚ) (i : ℕ) : ℚ :=
  if energy_curve.isEmpty then mkRat 5 10
  else energy_curve.getD (min (i * 10 / 10) (energy_curve.length - 1)) 0

/-- One raw (pre-smoothing) emotion point of `EmotionMapper.map`. -/
def rawEmotionPoint (base_valence tempo : ℚ) (energy_curve : List ℚ)
    (sections : List Section) (chords : Option (List Chord)) (i : ℕ) :
    EmotionPoint :=
  let time : ℚ := i
  let energy := energyAt energy_curve i
  let sec := get_section_at time sections
  let chord_tension :=
    match chords with
    | some cs => get_chord_tension_at time cs
    | none => 0
  let valence := compute_valence base_valence sec chord_tension energy
  let arousal := compute_arousal tempo energy sec
  { time := time
    emotion := map_to_emotion valence arousal
    intensity := qdiv (qadd (qabs valence) (qabs arousal)) 2
    valence := valence
    arousal := arousal }

/-- The raw per-second point list generated by `EmotionMapper.map`
before temporal smoothing (`for i in range(int(duration))`). -/
def rawEmotionPoints (key mode : String) (tempo : ℚ) (energy_curve : List ℚ)
    (sections : List Section) (duration : ℚ) (chords : Option (List Chord)) :
    List EmotionPoint :=
  let base_valence := compute_base_valence key mode
  (List.range duration.floor.toNat).map
    (rawEmotionPoint base_valence tempo energy_curve sections chords)

/-- `EmotionMapper.map` (the summary field `emotional_range` is omitted,
see `EmotionArc`). -/
def emotionMap (key mode : String) (tempo : ℚ) (energy_curve : List ℚ)
    (sections : List Section) (duration : ℚ) (chords : Option (List Chord)) :
    EmotionArc :=
  let points :=
    smooth_emotions (rawEmotionPoints key mode tempo energy_curve sections
      duration chords)
  let valences := points.map (·.valence)
  let arousals := points.map (·.arousal)
  { points := points
    dominant_emotion :=
      match points with
      | [] => .NEUTRAL
      | _ =>
          let weights := fun e =>
            qsum ((points.filter (fun p => p.emotion = e)).map (·.intensity))
          -- `max(emotion_counts, key=emotion_counts.get)`: first emotion
          -- (in order of first appearance) with maximal cumulative intensity
          match (points.map (·.emotion)).dedup.find?
              (fun e => ∀ e2 ∈ (points.map (·.emotion)).dedup, weights e2 ≤ weights e) with
          | some e => e
          | none => .NEUTRAL
    overall_valence := if points = [] then 0 else npMean valences
    overall_arousal := if points = [] then 0 else npMean arousals }

/-! ### Bounds for valence and arousal (claim C5) -/

theorem compute_valence_bounds (b : ℚ) (sec : Option Section) (c e : ℚ) :
    -1 ≤ compute_valence b sec c e ∧ compute_valence b sec c e ≤ 1 := by
  refine ⟨?_, ?_⟩ <;> simp only [compute_valence]
  · exact le_npClip _ _ _ (by norm_num)
  · exact npClip_le _ _ _

theorem compute_arousal_bounds (tempo e : ℚ) (sec : Option Section) :
    -1 ≤ compute_arousal tempo e sec ∧ compute_arousal tempo e sec ≤ 1 := by
  refine ⟨?_, ?_⟩ <;> simp only [compute_arousal]
  · exact le_npClip _ _ _ (by norm_num)
  · exact npClip_le _ _ _

/-- Convex blending of two values in `[-1, 1]` with weights 0.3/0.7
stays in `[-1, 1]`. -/
theorem blend_bounds {x y : ℚ} (hx1 : -1 ≤ x) (hx2 : x ≤ 1) (hy1 : -1 ≤ y)
    (hy2 : y ≤ 1) :
    -1 ≤ qadd (qmul x (mkRat 3 10)) (qmul y (mkRat 7 10)) ∧
    qadd (qmul x (mkRat 3 10)) (qmul y (mkRat 7 10)) ≤ 1 := by
  rw [qadd_eq, qmul_eq, qmul_eq, Rat.mkRat_eq_div, Rat.mkRat_eq_div]
  push_cast
  constructor <;> nlinarith

theorem smoothStep_bounds {prev p : EmotionPoint}
    (hprev : -1 ≤ prev.valence ∧ prev.valence ≤ 1 ∧
      -1 ≤ prev.arousal ∧ prev.arousal ≤ 1)
    (hp : -1 ≤ p.valence ∧ p.valence ≤ 1 ∧
      -1 ≤ p.arousal ∧ p.arousal ≤ 1) :
    -1 ≤ (smoothStep prev p).valence ∧ (smoothStep prev p).valence ≤ 1 ∧
      -1 ≤ (smoothStep prev p).arousal ∧ (smoothStep prev p).arousal ≤ 1 := by
  obtain ⟨h1, h2, h3, h4⟩ := hprev
  obtain ⟨h5, h6, h7, h8⟩ := hp
  have hv := blend_bounds h1 h2 h5 h6
  have ha := blend_bounds h3 h4 h7 h8
  exact ⟨hv.1, hv.2, ha.1, ha.2⟩

theorem smoothAux_bounds (pts : List EmotionPoint) :
    ∀ prev : EmotionPoint,
      (-1 ≤ prev.valence ∧ prev.valence ≤ 1 ∧
        -1 ≤ prev.arousal ∧ prev.arousal ≤ 1) →
      (∀ p ∈ pts, -1 ≤ p.valence ∧ p.valence ≤ 1 ∧
        -1 ≤ p.arousal ∧ p.arousal ≤ 1) →
      ∀ q ∈ smoothAux prev pts,
        -1 ≤ q.valence ∧ q.valence ≤ 1 ∧ -1 ≤ q.arousal ∧ q.arousal ≤ 1 := by
  induction pts with
  | nil => intro prev _ _ q hq; simp [smoothAux] at hq
  | cons hd tl ih =>
      intro prev hprev hpts q hq
      have hstep := smoothStep_bounds hprev (hpts hd (by simp))
      simp only [smoothAux, List.mem_cons] at hq
      rcases hq with hq | hq
      · subst hq; exact hstep
      · exact ih (smoothStep prev hd) hstep
          (fun r hr => hpts r (by simp [hr])) q hq

theorem smooth_emotions_bounds (pts : List EmotionPoint) :
    (∀ p ∈ pts, -1 ≤ p.valence ∧ p.valence ≤ 1 ∧
      -1 ≤ p.arousal ∧ p.arousal ≤ 1) →
    ∀ q ∈ smooth_emotions pts,
      -1 ≤ q.valence ∧ q.valence ≤ 1 ∧ -1 ≤ q.arousal ∧ q.arousal ≤ 1 := by
  rcases pts with _ | ⟨hd, tl⟩
  · intro _ q hq; simp [smooth_emotions] at hq
  · intro h q hq
    simp only [smooth_emotions, List.mem_cons] at hq
    rcases hq with hq | hq
    · rw [hq]; exact h hd (by simp)
    · exact smoothAux_bounds tl hd (h hd (by simp))
        (fun r hr => h r (by simp [hr])) q hq

theorem rawEmotionPoints_bounds (key mode : String) (tempo : ℚ)
    (curve : List ℚ) (sections : List Section) (duration : ℚ)
    (chords : Option (List Chord)) :
    ∀ p ∈ rawEmotionPoints key mode tempo curve sections duration chords,
      -1 ≤ p.valence ∧ p.valence ≤ 1 ∧ -1 ≤ p.arousal ∧ p.arousal ≤ 1 := by
  intro p hp
  simp only [rawEmotionPoints, List.mem_map] at hp
  obtain ⟨i, _, hi⟩ := hp
  subst hi
  simp only [rawEmotionPoint]
  exact ⟨(compute_valence_bounds _ _ _ _).1, (compute_valence_bounds _ _ _ _).2,
    (compute_arousal_bounds _ _ _).1, (compute_arousal_bounds _ _ _).2⟩

/-- **C5.**  For every input (key, mode, tempo, energy curve, sections,
duration, chords), every `EmotionPoint` produced by `EmotionMapper.map`
has valence in `[-1, 1]` and arousal in `[-1, 1]`, both for the raw
per-second points (outputs of `_compute_valence` / `_compute_arousal`)
and for the points after exponential temporal smoothing
(`_smooth_emotions`). -/
theorem emotion_points_in_range (key mode : String) (tempo : ℚ)
    (curve : List ℚ) (sections : List Section) (duration : ℚ)
    (chords : Option (List Chord)) :
    (∀ p ∈ rawEmotionPoints key mode tempo curve sections duration chords,
      -1 ≤ p.valence ∧ p.valence ≤ 1 ∧ -1 ≤ p.arousal ∧ p.arousal ≤ 1) ∧
    (∀ p ∈ (emotionMap key mode tempo curve sections duration chords).points,
      -1 ≤ p.valence ∧ p.valence ≤ 1 ∧ -1 ≤ p.arousal ∧ p.arousal ≤ 1) := by
  refine ⟨rawEmotionPoints_bounds _ _ _ _ _ _ _, ?_⟩
  intro p hp
  have : (emotionMap key mode tempo curve sections duration chords).points
      = smooth_emotions (rawEmotionPoints key mode tempo curve sections duration chords) := rfl
  rw [this] at hp
  exact smooth_emotions_bounds _
    (rawEmotionPoints_bounds key mode tempo curve sections duration chords) p hp

/-- Witness for C5: a concrete one-second track, with the theorem
instantiated at its single raw emotion point. -/
theorem emotion_points_in_range_witness :
    (rawEmotionPoint (compute_base_valence "C" "major") 120 [mkRat 5 10] [] none 0
        ∈ rawEmotionPoints "C" "major" 120 [mkRat 5 10] [] 1 none) ∧
    (-1 ≤ (rawEmotionPoint (compute_base_valence "C" "major") 120 [mkRat 5 10] [] none 0).valence ∧
      (rawEmotionPoint (compute_base_valence "C" "major") 120 [mkRat 5 10] [] none 0).valence ≤ 1 ∧
      -1 ≤ (rawEmotionPoint (compute_base_valence "C" "major") 120 [mkRat 5 10] [] none 0).arousal ∧
      (rawEmotionPoint (compute_base_valence "C" "major") 120 [mkRat 5 10] [] none 0).arousal ≤ 1) :=
  ⟨by decide,
    (emotion_points_in_range "C" "major" 120 [mkRat 5 10] [] 1 none).1 _ (by decide)⟩

set_option maxRecDepth 100000 in
/-- **C7.**  For key "C", mode "major", tempo 120, a constant energy
curve of value 0.5 (1000 samples at 10 Hz), no sections or chords, and
duration 100 s, `EmotionMapper.map` returns an arc with strictly
positive overall valence and overall arousal exactly 0 (the tempo term
at 120 BPM is 0 and energy exactly 0.5 contributes 0). -/
theorem c7_major_scenario :
    0 < (emotionMap "C" "major" 120 (List.replicate 1000 (mkRat 5 10))
          [] 100 none).overall_valence ∧
    (emotionMap "C" "major" 120 (List.replicate 1000 (mkRat 5 10))
          [] 100 none).overall_arousal = 0 := by
  constructor
  · decide
  · decide

/-! ### `structure_detector.py`: boundary detection and classification

The detector runs at `sample_rate = 10` Hz; the minimum segment is
`int(4 * 10) = 40` frames.  `_detect_boundaries` receives the
self-similarity matrix as an argument (as in the source); its entries
are modelled as rationals. -/

/-- Python `int()` truncation toward zero on a rational. -/
def pyInt (q : ℚ) : ℤ := q.num.tdiv q.den

/-- `min` on `ℤ` written with an explicit comparison. -/
def intMin (a b : ℤ) : ℤ := if a ≤ b then a else b

/-- Mean of the submatrix `ssm[r0:r1, c0:c1]` (`np.mean` over a 2-D
slice; the divisor is the slice's element count, as for an ndarray). -/
def sliceMean (ssm : List (List ℚ)) (r0 r1 c0 c1 : ℕ) : ℚ :=
  qdiv (qsum (((ssm.drop r0).take (r1 - r0)).map
      (fun row => qsum ((row.drop c0).take (c1 - c0)))))
    (((r1 - r0) * (c1 - c0) : ℕ))

/-- The novelty curve of `_detect_boundaries`: checkerboard-kernel
contrast with half-width `kernel_size = min(32, n // 4)`, zero outside
`[kernel_size, n - kernel_size)`. -/
def noveltyCurve (ssm : List (List ℚ)) : List ℚ :=
  let n := ssm.length
  let k := min 32 (n / 4)
  (List.range n).map (fun i =>
    if k ≤ i ∧ i + k < n then
      qsub (qadd (sliceMean ssm (i - k) i (i - k) i)
                 (sliceMean ssm i (i + k) i (i + k)))
           (qadd (sliceMean ssm (i - k) i i (i + k))
                 (sliceMean ssm i (i + k) (i - k) i))
    else 0)

/-- The peak-picking condition `novelty[i] > threshold` with
`threshold = mean(novelty) + std(novelty) * 0.5`.  Writing
`d = novelty[i] - mean`, the comparison `d > 0.5 * sqrt(var)` is
equivalent to `d > 0 ∧ var < 4 * d^2`, which avoids the irrational
square root. -/
def noveltyExceeds (nov : List ℚ) (i : ℕ) : Prop :=
  let d := qsub (nov.getD i 0) (npMean nov)
  0 < d ∧ npVar nov < qmul 4 (qmul d d)

instance (nov : List ℚ) (i : ℕ) : Decidable (noveltyExceeds nov i) := by
  unfold noveltyExceeds; infer_instance

/-- `min(beat_frames, key=lambda b: abs(b - i))`: the first element with
minimal distance (Python `min` keeps the earliest minimum). -/
def nearestBeat (frames : List ℤ) (i : ℤ) : ℤ :=
  match frames with
  | [] => 0
  | f :: rest =>
      rest.foldl (fun acc b =>
        if (b - i).natAbs < (acc - i).natAbs then b else acc) f

/-- Beat snapping inside the boundary loop: replace `i` by the nearest
beat frame when it lies strictly within one second (10 frames). -/
def snapIndex (beat_frames : List ℤ) (i : ℕ) : ℕ :=
  if beat_frames = [] then i
  else
    let nb := nearestBeat beat_frames (i : ℤ)
    if (nb - (i : ℤ)).natAbs < 10 then nb.toNat else i

theorem snapIndex_bounds (bf : List ℤ) (i : ℕ) :
    i ≤ snapIndex bf i + 9 ∧ snapIndex bf i ≤ i + 9 := by
  simp only [snapIndex]
  split
  · omega
  · split <;> omega

/-- The scanning loop of `_detect_boundaries`: while `i < n - 40`, a
frame whose novelty exceeds the threshold emits a (beat-snapped)
boundary frame and advances by the minimum segment length, otherwise
the scan advances by one frame.  The loop index strictly increases, so
any `fuel ≥ n - i` makes the fuel guard unreachable
(`boundLoop_fuel_stable`); structural recursion on fuel is used because
well-founded recursion does not kernel-reduce. -/
def boundLoop (nov : List ℚ) (bf : List ℤ) (n : ℕ) : ℕ → ℕ → List ℕ
  | 0, _ => []
  | fuel + 1, i =>
      if i < n - 40 then
        if noveltyExceeds nov i then
          snapIndex bf i :: boundLoop nov bf n fuel (snapIndex bf i + 40)
        else
          boundLoop nov bf n fuel (i + 1)
      else []

/-- The fuel guard of `boundLoop` is unreachable for any fuel of at
least `n - i`: the loop is the honest while-loop of the source. -/
theorem boundLoop_fuel_stable (nov : List ℚ) (bf : List ℤ) (n : ℕ) :
    ∀ f1 : ℕ, ∀ f2 i : ℕ, n ≤ i + f1 → n ≤ i + f2 →
      boundLoop nov bf n f1 i = boundLoop nov bf n f2 i := by
  intro f1
  induction f1 with
  | zero =>
      intro f2 i h1 h2
      cases f2 with
      | zero => rfl
      | succ g =>
          have : ¬ i < n - 40 := by omega
          simp [boundLoop, this]
  | succ g ih =>
      intro f2 i h1 h2
      cases f2 with
      | zero =>
          have : ¬ i < n - 40 := by omega
          simp [boundLoop, this]
      | succ h =>
          by_cases hi : i < n - 40
          · simp only [boundLoop, if_pos hi]
            by_cases hn : noveltyExceeds nov i
            · have hs := snapIndex_bounds bf i
              rw [if_pos hn, if_pos hn,
                ih h (snapIndex bf i + 40) (by omega) (by omega)]
            · rw [if_neg hn, if_neg hn, ih h (i + 1) (by omega) (by omega)]
          · simp [boundLoop, hi]

/-- `sorted(set(xs))`: ascending order, duplicates removed.
(`insertionSort` rather than `mergeSort` because the latter is defined
by well-founded recursion and does not kernel-reduce.) -/
def sortedDedup (xs : List ℚ) : List ℚ :=
  (List.insertionSort (fun a b => a ≤ b) xs).dedup

/-- `StructureDetector._detect_boundaries` (the `tempo` argument is
unused in the source as well). -/
def detect_boundaries (ssm : List (List ℚ)) (beats : List ℚ)
    (tempo duration : ℚ) : List ℚ :=
  let n := ssm.length
  let nov := noveltyCurve ssm
  let bf := beats.map (fun b => pyInt (qmul b 10))
  let idxs := boundLoop nov bf n n 40
  sortedDedup (0 :: (idxs.map (fun (j : ℕ) => qdiv (j : ℚ) 10) ++ [duration]))

/-- `StructureDetector._classify_segment`: the heuristic decision
table. -/
def classify_segment (start stop duration energy energy_var tempo : ℚ) :
    SectionType :=
  let segment_duration := qsub stop start
  let position := qdiv start duration
  let e := ratMin (ratMax energy 0) 1
  if position < mkRat 1 10 ∧ e < mkRat 4 10 then .INTRO
  else if position > mkRat 85 100 ∧ e < mkRat 5 10 then .OUTRO
  else if e > mkRat 8 10 then
    if tempo > 130 ∧ energy_var > mkRat 5 100 then .DROP else .CHORUS
  else if e > mkRat 6 10 then
    if energy_var > mkRat 1 10 then .BUILDUP else .CHORUS
  else if e > mkRat 4 10 then
    if segment_duration > 20 then .VERSE else .PRE_CHORUS
  else if e > mkRat 2 10 then
    if energy_var < mkRat 2 100 then .BREAKDOWN else .VERSE
  else if mkRat 4 10 < position ∧ position < mkRat 7 10 then .BRIDGE
  else .VERSE

/-- Loop body of `_classify_segments` over consecutive boundary pairs,
threading the per-type repetition counters.  A pair whose frame window
`[start_idx, end_idx)` is empty is skipped (`continue`). -/
def classifyGo (ec : List ℚ) (duration tempo : ℚ)
    (counts : SectionType → ℕ) : List ℚ → List Section
  | b0 :: b1 :: rest =>
      let start_idx := pyInt (qmul b0 10)
      let end_idx := intMin (pyInt (qmul b1 10)) (ec.length : ℤ)
      if start_idx ≥ end_idx then
        classifyGo ec duration tempo counts (b1 :: rest)
      else
        let seg := (ec.drop start_idx.toNat).take (end_idx - start_idx).toNat
        let segE := npMean seg
        let segV := npVar seg
        let ty := classify_segment b0 b1 duration segE segV tempo
        let counts2 := fun t => if t = ty then counts t + 1 else counts t
        { section_type := ty
          start_time := b0
          end_time := b1
          energy := segE
          repetition := counts2 ty
          confidence := mkRat 8 10 } ::
          classifyGo ec duration tempo counts2 (b1 :: rest)
  | _ => []

/-- `StructureDetector._classify_segments`. -/
def classify_segments (boundaries : List ℚ) (energy_curve : List ℚ)
    (duration tempo : ℚ) : List Section :=
  classifyGo energy_curve duration tempo (fun _ => 0) boundaries

/-! ### `structure_detector.py`: climax detection -/

/-- `np.max` of a list (0 for the empty list; every use is on a
non-empty list). -/
def npMax (xs : List ℚ) : ℚ := xs.foldl ratMax (xs.headD 0)

/-- `np.convolve(energy_curve, np.ones(20)/20, mode='same')`: the
centered length-`max(N, 20)` slice of the full convolution with the
20-sample box filter. -/
def convolveSame20 (e : List ℚ) : List ℚ :=
  let N := e.length
  let offset := (min N 20 - 1) / 2
  (List.range (max N 20)).map (fun i =>
    let t := i + offset
    qdiv (qsum ((List.range N).map (fun j =>
      if j ≤ t ∧ t < j + 20 then e.getD j 0 else 0))) 20)

/-- The candidate-peak condition of `_detect_climaxes`:
`smoothed[i] > smoothed[i-1]`, `> smoothed[i+1]`, and
`> mean(smoothed) + std(smoothed)` (encoded rationally as
`d > 0 ∧ var < d^2` for `d = smoothed[i] - mean`). -/
def isPeak (smoothed : List ℚ) (i : ℕ) : Prop :=
  let d := qsub (smoothed.getD i 0) (npMean smoothed)
  smoothed.getD (i - 1) 0 < smoothed.getD i 0 ∧
  smoothed.getD (i + 1) 0 < smoothed.getD i 0 ∧
  0 < d ∧ npVar smoothed < qmul d d

instance (smoothed : List ℚ) (i : ℕ) : Decidable (isPeak smoothed i) := by
  unfold isPeak; infer_instance

/-- The section lookup and label of the climax-classification loop: the
first section whose *closed* range `[start_time, end_time]` contains the
time (`section.start_time <= time <= section.end_time` in the source);
`"drop"` for DROP, `"emotional"` for CHORUS, `"energy"` otherwise or
when no section contains the time. -/
def climax_label (sections : List Section) (t : ℚ) : String :=
  match sections.find? (fun s => s.start_time ≤ t ∧ t ≤ s.end_time) with
  | some s =>
      if s.section_type = .DROP then "drop"
      else if s.section_type = .CHORUS then "emotional"
      else "energy"
  | none => "energy"

/-- The labelling rule as the claim states it: the enclosing section is
the first one whose *half-open* range `[start, end)` contains the time. -/
def climax_label_halfopen (sections : List Section) (t : ℚ) : String :=
  match sections.find? (fun s => s.start_time ≤ t ∧ t < s.end_time) with
  | some s =>
      if s.section_type = .DROP then "drop"
      else if s.section_type = .CHORUS then "emotional"
      else "energy"
  | none => "energy"

/-- The per-peak loop of `_detect_climaxes`, building the climax list in
order: each peak is labelled from its enclosing section; a late
(`time > 0.7 * duration`), strong (`intensity > 0.8 * max(smoothed)`)
peak is relabelled `"final"` when no earlier climax carries that label;
intensity is clamped to 1. -/
def climaxLoop (smoothed : List ℚ) (sections : List Section)
    (duration maxS : ℚ) (acc : List ClimaxPoint) :
    List ℕ → List ClimaxPoint
  | [] => acc
  | peak :: rest =>
      let time := qdiv (peak : ℚ) 10
      let intensity := smoothed.getD peak 0
      let ctype := climax_label sections time
      let ctype2 :=
        if qmul duration (mkRat 7 10) < time ∧
            (¬ acc.any (fun c => c.type = "final")) ∧
            qmul (mkRat 8 10) maxS < intensity then "final"
        else ctype
      climaxLoop smoothed sections duration maxS
        (acc ++ [{ time := time, intensity := ratMin intensity 1,
                   type := ctype2 }]) rest

/-- `StructureDetector._detect_climaxes`.  On a zero-length energy curve
`np.convolve` raises `ValueError`, modelled as `none`. -/
def detect_climaxes (energy_curve : List ℚ) (sections : List Section)
    (duration : ℚ) : Option (List ClimaxPoint) :=
  if energy_curve = [] then none
  else
    let smoothed := convolveSame20 energy_curve
    let peaks := (List.range smoothed.length).filter
      (fun i => decide (1 ≤ i ∧ i + 1 < smoothed.length ∧ isPeak smoothed i))
    some (climaxLoop smoothed sections duration (npMax smoothed) [] peaks)

/-! ### Claim C1: the classified sections partition `[0, duration)` -/

theorem pyInt_natCast (j : ℕ) : pyInt ((j : ℕ) : ℚ) = j := by
  unfold pyInt
  rw [Rat.num_natCast, Rat.den_natCast]
  exact Int.tdiv_one j

theorem qmul_qdiv_frame (j : ℕ) : qmul (qdiv (j : ℚ) 10) 10 = (j : ℚ) := by
  rw [qmul_eq, qdiv_eq]
  field_simp

theorem pyInt_frame (j : ℕ) : pyInt (qmul (qdiv (j : ℚ) 10) 10) = j := by
  rw [qmul_qdiv_frame]
  exact pyInt_natCast j

theorem pyInt_zero : pyInt (qmul 0 10) = 0 := by
  rw [qmul_eq]
  norm_num
  rfl

/-- Truncation dominates any natural lower bound. -/
theorem le_pyInt_of_natCast_le {n : ℕ} {q : ℚ} (h : (n : ℚ) ≤ q) :
    (n : ℤ) ≤ pyInt q := by
  have hq0 : 0 ≤ q := le_trans (by positivity) h
  have hnum : 0 ≤ q.num := Rat.num_nonneg.mpr hq0
  have hden : 0 < (q.den : ℤ) := by exact_mod_cast q.pos
  have h1 : (n : ℤ) * q.den ≤ q.num := by
    have h2 := Rat.le_def.mp h
    simpa using h2
  have h3 := Int.tdiv_add_tmod q.num q.den
  have h4 : 0 ≤ q.num.tmod q.den := Int.tmod_nonneg _ (by omega)
  have h5 : q.num.tmod q.den < q.den := Int.tmod_lt_of_pos _ hden
  unfold pyInt
  nlinarith [h3, h4, h5, h1]

/-- Every frame emitted by the boundary loop (started at frame 40, the
minimum segment) lies in `[31, n - 32]`: snapping moves a frame by at
most 9 and the loop runs on `[40, n - 40)`. -/
theorem boundLoop_mem (nov : List ℚ) (bf : List ℤ) (n : ℕ) :
    ∀ fuel i j, j ∈ boundLoop nov bf n fuel i → 40 ≤ i →
      31 ≤ j ∧ j + 32 ≤ n := by
  intro fuel
  induction fuel with
  | zero => intro i j hj _; simp [boundLoop] at hj
  | succ g ih =>
      intro i j hj hi
      by_cases h1 : i < n - 40
      · rw [boundLoop, if_pos h1] at hj
        by_cases h2 : noveltyExceeds nov i
        · rw [if_pos h2, List.mem_cons] at hj
          have hs := snapIndex_bounds bf i
          rcases hj with hj | hj
          · omega
          · exact ih _ _ hj (by omega)
        · rw [if_neg h2] at hj
          exact ih _ _ hj (by omega)
      · rw [boundLoop, if_neg h1] at hj
        simp at hj

theorem sortedDedup_sorted (xs : List ℚ) :
    (sortedDedup xs).Pairwise (fun a b => a ≤ b) :=
  List.Pairwise.sublist (List.dedup_sublist _)
    (List.sorted_insertionSort (fun a b => a ≤ b) xs)

theorem sortedDedup_nodup (xs : List ℚ) : (sortedDedup xs).Nodup :=
  List.nodup_dedup _

theorem sortedDedup_mem (xs : List ℚ) (a : ℚ) :
    a ∈ sortedDedup xs ↔ a ∈ xs :=
  (List.mem_dedup).trans (List.Perm.mem_iff (List.perm_insertionSort _ xs))

theorem sortedDedup_pairwise_lt (xs : List ℚ) :
    (sortedDedup xs).Pairwise (fun a b => a < b) := by
  have h1 := sortedDedup_sorted xs
  have h2 := sortedDedup_nodup xs
  exact (h1.and h2).imp (fun h => lt_of_le_of_ne h.1 h.2)

/-- In a `≤`-sorted list, a member below every member is the head. -/
theorem head?_eq_of_min {l : List ℚ} (hs : l.Pairwise (fun a b => a ≤ b))
    (hx : (x : ℚ) ∈ l) (hall : ∀ y ∈ l, x ≤ y) : l.head? = some x := by
  cases l with
  | nil => simp at hx
  | cons a t =>
      have hxa : x ≤ a := hall a (by simp)
      have hax : a ≤ x := by
        rcases List.mem_cons.mp hx with h | h
        · rw [h]
        · exact (List.pairwise_cons.mp hs).1 x h
      simp [le_antisymm hax hxa]

/-- In a `≤`-sorted list, a member above every member is the last. -/
theorem getLast?_eq_of_max {l : List ℚ}
    (hs : l.Pairwise (fun a b => a ≤ b)) (hx : (x : ℚ) ∈ l)
    (hall : ∀ y ∈ l, y ≤ x) : l.getLast? = some x := by
  induction l with
  | nil => simp at hx
  | cons a t ih =>
      cases t with
      | nil =>
          simp at hx
          simp [hx]
      | cons b t2 =>
          rw [List.getLast?_cons_cons]
          by_cases hxm : x ∈ b :: t2
          · exact ih (List.pairwise_cons.mp hs).2 hxm
              (fun y hy => hall y (by simp [hy]))
          · have hxa : x = a := by
              rcases List.mem_cons.mp hx with h | h
              · exact h
              · exact absurd h hxm
            have hbx : x ≤ b := by
              rw [hxa]
              exact (List.pairwise_cons.mp hs).1 b (by simp)
            have hxb : b = x := le_antisymm (hall b (by simp)) hbx
            exact ih (List.pairwise_cons.mp hs).2 (by rw [← hxb]; simp)
              (fun y hy => hall y (by simp [hy]))

/-- Shape of the boundary list: besides the two sentinels 0 and
`duration`, every boundary is an interior frame `j/10` with
`j ∈ [31, n-32]`. -/
theorem detect_boundaries_mem (ssm : List (List ℚ)) (beats : List ℚ)
    (tempo duration : ℚ) :
    ∀ x ∈ detect_boundaries ssm beats tempo duration,
      x = 0 ∨ x = duration ∨
        ∃ j : ℕ, 31 ≤ j ∧ j + 32 ≤ ssm.length ∧ x = qdiv (j : ℚ) 10 := by
  intro x hx
  simp only [detect_boundaries] at hx
  rw [sortedDedup_mem, List.mem_cons, List.mem_append, List.mem_map] at hx
  rcases hx with hx | hx2
  · exact Or.inl hx
  · rcases hx2 with ⟨j, hj, hx⟩ | hx
    · have hb := boundLoop_mem _ _ _ _ _ _ hj (le_refl 40)
      exact Or.inr (Or.inr ⟨j, by omega, by omega, hx.symm⟩)
    · rw [List.mem_singleton] at hx
      exact Or.inr (Or.inl hx)

theorem detect_boundaries_zero_mem (ssm : List (List ℚ)) (beats : List ℚ)
    (tempo duration : ℚ) :
    (0 : ℚ) ∈ detect_boundaries ssm beats tempo duration := by
  simp only [detect_boundaries]
  rw [sortedDedup_mem]
  simp

theorem detect_boundaries_duration_mem (ssm : List (List ℚ))
    (beats : List ℚ) (tempo duration : ℚ) :
    duration ∈ detect_boundaries ssm beats tempo duration := by
  simp only [detect_boundaries]
  rw [sortedDedup_mem]
  simp

/-- Upgrading a strict pairwise order to any relation that follows from
order plus membership. -/
theorem pairwise_imp_mem {l : List ℚ} {S : ℚ → ℚ → Prop}
    (h : l.Pairwise (fun a b => a < b))
    (f : ∀ a ∈ l, ∀ b ∈ l, a < b → S a b) : l.Pairwise S := by
  induction l with
  | nil => exact List.Pairwise.nil
  | cons a t ih =>
      rw [List.pairwise_cons] at h ⊢
      exact ⟨fun b hb => f a (by simp) b (by simp [hb]) (h.1 b hb),
        ih h.2 (fun x hx y hy => f x (by simp [hx]) y (by simp [hy]))⟩

/-- Adjacent pairs of a list: the second component of each pair is the
first of the next. -/
theorem zip_tail_chain_snd_fst :
    ∀ l : List ℚ, (l.zip l.tail).Chain' (fun p q => p.2 = q.1)
  | [] => by simp
  | [_] => by simp
  | a :: b :: r => by
      have ih := zip_tail_chain_snd_fst (b :: r)
      cases r with
      | nil => simp
      | cons c r2 =>
          simp only [List.tail_cons, List.zip_cons_cons] at ih ⊢
          exact List.chain'_cons.mpr ⟨rfl, ih⟩

/-- Adjacent pairs of a strictly sorted list are strictly increasing. -/
theorem zip_tail_pairs_lt :
    ∀ l : List ℚ, l.Pairwise (fun a b => a < b) →
      ∀ p ∈ l.zip l.tail, p.1 < p.2
  | [] => by simp
  | [_] => by simp
  | a :: b :: r => by
      intro h p hp
      simp only [List.tail_cons, List.zip_cons_cons, List.mem_cons] at hp
      rcases hp with hp | hp
      · rw [hp]
        exact (List.pairwise_cons.mp h).1 b (by simp)
      · exact zip_tail_pairs_lt (b :: r) (List.pairwise_cons.mp h).2 p hp

/-- First components of adjacent pairs of a strictly sorted list are
strictly increasing. -/
theorem zip_tail_chain_fst_lt :
    ∀ l : List ℚ, l.Pairwise (fun a b => a < b) →
      (l.zip l.tail).Chain' (fun p q => p.1 < q.1)
  | [] => by simp
  | [_] => by simp
  | a :: b :: r => by
      intro h
      have ih := zip_tail_chain_fst_lt (b :: r) (List.pairwise_cons.mp h).2
      cases r with
      | nil => simp
      | cons c r2 =>
          simp only [List.tail_cons, List.zip_cons_cons] at ih ⊢
          exact List.chain'_cons.mpr
            ⟨(List.pairwise_cons.mp h).1 b (by simp), ih⟩

/-- When no consecutive boundary pair is skipped, the classification
emits exactly one section per pair, spanning it. -/
theorem classifyGo_spans (ec : List ℚ) (duration tempo : ℚ) :
    ∀ (bs : List ℚ) (counts : SectionType → ℕ),
      bs.Chain' (fun a b =>
        pyInt (qmul a 10) < intMin (pyInt (qmul b 10)) (ec.length : ℤ)) →
      (classifyGo ec duration tempo counts bs).map
          (fun s => (s.start_time, s.end_time)) = bs.zip bs.tail
  | [], _, _ => by simp [classifyGo]
  | [b], _, _ => by simp [classifyGo]
  | b0 :: b1 :: rest, counts, h => by
      have hrel := (List.chain'_cons.mp h).1
      have htail := (List.chain'_cons.mp h).2
      have hns : ¬ (pyInt (qmul b0 10) ≥
          intMin (pyInt (qmul b1 10)) (ec.length : ℤ)) := by omega
      simp only [classifyGo, if_neg hns, List.map_cons, List.tail_cons,
        List.zip_cons_cons]
      exact List.cons_eq_cons.mpr
        ⟨rfl, classifyGo_spans ec duration tempo (b1 :: rest) _ htail⟩

/-- **C1.**  For every valid track (features and energy curve aligned at
10 Hz: `energy_curve.length = ssm.length`, at least one frame, and a
duration covering all frames, `ssm.length ≤ 10 * duration`), the Section
list produced by `_classify_segments` over `_detect_boundaries` is
non-empty, starts at 0, ends at `duration`, is contiguous
(`end_time = next start_time`), strictly sorted by start time, and every
section has positive extent — i.e. the `[start, end)` ranges partition
`[0, duration)` with no gaps or overlaps. -/
theorem sections_partition (ssm : List (List ℚ)) (beats : List ℚ)
    (tempo duration : ℚ) (energy_curve : List ℚ)
    (hlen : energy_curve.length = ssm.length)
    (hn : 1 ≤ ssm.length)
    (hdur : (ssm.length : ℚ) ≤ qmul 10 duration) :
    classify_segments (detect_boundaries ssm beats tempo duration)
        energy_curve duration tempo ≠ [] ∧
    ((classify_segments (detect_boundaries ssm beats tempo duration)
        energy_curve duration tempo).map Section.start_time).head? = some 0 ∧
    ((classify_segments (detect_boundaries ssm beats tempo duration)
        energy_curve duration tempo).map Section.end_time).getLast?
      = some duration ∧
    (classify_segments (detect_boundaries ssm beats tempo duration)
        energy_curve duration tempo).Chain'
      (fun s t => s.end_time = t.start_time) ∧
    (classify_segments (detect_boundaries ssm beats tempo duration)
        energy_curve duration tempo).Chain'
      (fun s t => s.start_time < t.start_time) ∧
    (∀ s ∈ classify_segments (detect_boundaries ssm beats tempo duration)
        energy_curve duration tempo, s.start_time < s.end_time) := by
  have hdur' : (ssm.length : ℚ) ≤ 10 * duration := by
    rw [qmul_eq] at hdur; exact hdur
  set n := ssm.length with hn_def
  set B := detect_boundaries ssm beats tempo duration with hB
  set f : Section → ℚ × ℚ := fun s => (s.start_time, s.end_time) with hf
  set secs := classify_segments B energy_curve duration tempo with hsecs
  have hdpos : 0 < duration := by
    have h1 : (1 : ℚ) ≤ (n : ℚ) := by exact_mod_cast hn
    linarith
  have hmem := detect_boundaries_mem ssm beats tempo duration
  have h0B : (0 : ℚ) ∈ B := detect_boundaries_zero_mem ssm beats tempo duration
  have hdB : duration ∈ B :=
    detect_boundaries_duration_mem ssm beats tempo duration
  have hsort : B.Pairwise (fun a b => a ≤ b) := by
    rw [hB]; simp only [detect_boundaries]; exact sortedDedup_sorted _
  have hlt : B.Pairwise (fun a b => a < b) := by
    rw [hB]; simp only [detect_boundaries]; exact sortedDedup_pairwise_lt _
  have hrange : ∀ x ∈ B, 0 ≤ x ∧ x ≤ duration := by
    intro x hx
    rcases hmem x hx with h | h | ⟨j, hj1, hj2, hj3⟩
    · subst h; exact ⟨le_refl 0, le_of_lt hdpos⟩
    · subst h; exact ⟨le_of_lt hdpos, le_refl _⟩
    · subst hj3
      rw [qdiv_eq]
      constructor
      · positivity
      · have hj2' : ((j : ℚ)) + 32 ≤ (n : ℚ) := by exact_mod_cast hj2
        linarith
  have hhead : B.head? = some 0 :=
    head?_eq_of_min hsort h0B (fun y hy => (hrange y hy).1)
  have hlastB : B.getLast? = some duration :=
    getLast?_eq_of_max hsort hdB (fun y hy => (hrange y hy).2)
  have hchain : B.Chain' (fun a b =>
      pyInt (qmul a 10) < intMin (pyInt (qmul b 10))
        (energy_curve.length : ℤ)) := by
    apply List.Pairwise.chain'
    apply pairwise_imp_mem hlt
    intro a ha b hb hab
    rw [hlen]
    have hdge : (n : ℤ) ≤ pyInt (qmul duration 10) := by
      apply le_pyInt_of_natCast_le
      rw [qmul_eq]; linarith
    rcases hmem a ha with ha0 | had | ⟨j, hj1, hj2, hj3⟩
    · subst ha0
      rw [pyInt_zero]
      rcases hmem b hb with hb0 | hbd | ⟨k, hk1, hk2, hk3⟩
      · subst hb0; exact absurd hab (lt_irrefl 0)
      · subst hbd
        unfold intMin; split <;> omega
      · subst hk3
        rw [pyInt_frame]
        unfold intMin; split <;> omega
    · subst had
      exact absurd hab (not_lt.mpr (hrange b hb).2)
    · subst hj3
      rw [pyInt_frame]
      rcases hmem b hb with hb0 | hbd | ⟨k, hk1, hk2, hk3⟩
      · subst hb0
        have h0j : (0 : ℚ) ≤ qdiv (j : ℚ) 10 := by rw [qdiv_eq]; positivity
        exact absurd hab (not_lt.mpr h0j)
      · subst hbd
        unfold intMin; split <;> omega
      · subst hk3
        rw [pyInt_frame]
        have hjk : j < k := by
          rw [qdiv_eq, qdiv_eq] at hab
          have hq : (j : ℚ) < k := by linarith
          exact_mod_cast hq
        unfold intMin; split <;> omega
  obtain ⟨B1, hB1⟩ : ∃ t, B = 0 :: t := by
    cases hBc : B with
    | nil => rw [hBc] at hhead; simp at hhead
    | cons x t =>
        rw [hBc] at hhead
        simp only [List.head?_cons, Option.some_inj] at hhead
        exact ⟨t, by rw [hhead]⟩
  obtain ⟨b1, B2, hB2⟩ : ∃ b1 B2, B1 = b1 :: B2 := by
    cases hB1c : B1 with
    | nil =>
        exfalso
        rw [hB1, hB1c] at hlastB
        simp at hlastB
        exact (ne_of_gt hdpos) hlastB.symm
    | cons b1 B2 => exact ⟨b1, B2, rfl⟩
  have hspans : secs.map f = B.zip B.tail :=
    classifyGo_spans energy_curve duration tempo B (fun _ => 0) hchain
  have hsecs_ne : secs ≠ [] := by
    intro hcon
    rw [hcon, hB1, hB2] at hspans
    simp [List.zip_cons_cons] at hspans
  obtain ⟨s0, srest, hs0⟩ : ∃ s0 srest, secs = s0 :: srest := by
    cases hc : secs with
    | nil => exact absurd hc hsecs_ne
    | cons s0 srest => exact ⟨s0, srest, rfl⟩
  have hfs0 : f s0 = (0, b1) := by
    have h1 : (secs.map f).head? = some (0, b1) := by
      rw [hspans, hB1, hB2]
      simp [List.zip_cons_cons]
    rw [hs0] at h1
    simp only [List.map_cons, List.head?_cons, Option.some_inj] at h1
    exact h1
  refine ⟨hsecs_ne, ?_, ?_, ?_, ?_, ?_⟩
  · rw [hs0]
    simp only [List.map_cons, List.head?_cons, Option.some_inj]
    exact congrArg Prod.fst hfs0
  · have hmapend : secs.map Section.end_time = B.tail := by
      have h2 : (secs.map f).map Prod.snd = B.tail := by
        rw [hspans]
        exact List.map_snd_zip _ _ (by rw [hB1]; simp)
      rw [List.map_map] at h2
      exact h2
    rw [hmapend, hB1, hB2]
    rw [hB1, hB2, List.getLast?_cons_cons] at hlastB
    exact hlastB
  · have hz := zip_tail_chain_snd_fst B
    rw [← hspans] at hz
    exact (List.chain'_map f).mp hz
  · have hz := zip_tail_chain_fst_lt B hlt
    rw [← hspans] at hz
    exact (List.chain'_map f).mp hz
  · intro s hs
    have hfs : f s ∈ secs.map f := List.mem_map_of_mem f hs
    rw [hspans] at hfs
    exact zip_tail_pairs_lt B hlt (f s) hfs

/-- Witness for C1: a one-frame track of duration 0.1 s, on which the
theorem's hypotheses hold by computation and which yields the single
full-length section. -/
theorem sections_partition_witness :
    (([(mkRat 5 10 : ℚ)].length = [[(1 : ℚ)]].length) ∧
      (1 ≤ [[(1 : ℚ)]].length) ∧
      (([[(1 : ℚ)]].length : ℚ) ≤ qmul 10 (mkRat 1 10))) ∧
    classify_segments (detect_boundaries [[(1 : ℚ)]] [] 120 (mkRat 1 10))
      [mkRat 5 10] (mkRat 1 10) 120 ≠ [] :=
  ⟨⟨rfl, by decide, by decide⟩,
    (sections_partition [[(1 : ℚ)]] [] 120 (mkRat 1 10) [mkRat 5 10]
      rfl (by decide) (by decide)).1⟩

/-- **C3 (behaviour at the failing input).**  On a zero-length energy
curve (and feature matrix) the code does *not* resolve to a single
section spanning the whole duration: `_classify_segments` skips the only
boundary pair (its frame window is empty) and returns *zero* sections,
and `_detect_climaxes` crashes (`np.convolve` raises `ValueError` on an
empty input, modelled as `none`) instead of returning zero climaxes. -/
theorem c3_empty_curve_behaviour :
    detect_boundaries [] [] 120 1 = [0, 1] ∧
    classify_segments (detect_boundaries [] [] 120 1) [] 1 120 = [] ∧
    detect_climaxes [] (classify_segments (detect_boundaries [] [] 120 1)
      [] 1 120) 1 = none := by
  refine ⟨by decide, by decide, by decide⟩

/-- Energy curve for the C8 analysis: 4 s at 10 Hz, a 2-s plateau of
full energy in the middle, which produces exactly one candidate peak,
at frame 20 (time 2.0 s, a section boundary). -/
def c8_energy : List ℚ :=
  List.replicate 10 0 ++ List.replicate 20 1 ++ List.replicate 10 0

/-- Sections for the C8 analysis: a CHORUS on [0,2] followed by a DROP
on [2,4]. -/
def c8_sections : List Section :=
  [{ section_type := .CHORUS, start_time := 0, end_time := 2, energy := 1,
     repetition := 1, confidence := mkRat 8 10 },
   { section_type := .DROP, start_time := 2, end_time := 4, energy := 1,
     repetition := 1, confidence := mkRat 8 10 }]

/-- Each climax point emitted by the per-peak loop is either the
relabelled `"final"` climax or carries the label of the first section
whose closed range contains its time. -/
theorem climaxLoop_types (smoothed : List ℚ) (secs : List Section)
    (d maxS : ℚ) :
    ∀ (peaks : List ℕ) (acc : List ClimaxPoint),
      (∀ c ∈ acc, c.type = "final" ∨ c.type = climax_label secs c.time) →
      ∀ c ∈ climaxLoop smoothed secs d maxS acc peaks,
        c.type = "final" ∨ c.type = climax_label secs c.time := by
  intro peaks
  induction peaks with
  | nil => intro acc hacc c hc; exact hacc c hc
  | cons p rest ih =>
      intro acc hacc c hc
      simp only [climaxLoop] at hc
      refine ih _ ?_ c hc
      intro c2 hc2
      rw [List.mem_append] at hc2
      rcases hc2 with hc2 | hc2
      · exact hacc c2 hc2
      · rw [List.mem_singleton] at hc2
        subst hc2
        split
        · exact Or.inl rfl
        · exact Or.inr rfl

/-- **C8 (amended).**  Every climax point produced by
`_detect_climaxes` either carries the late-peak label `"final"` or is
labelled from the first section whose *closed* range
`[start_time, end_time]` contains the peak time: `"drop"` for a DROP
section, `"emotional"` for a CHORUS, `"energy"` otherwise (including
when no section contains the time). -/
theorem climaxes_labelled_from_closed_section (e : List ℚ)
    (secs : List Section) (d : ℚ) (cs : List ClimaxPoint)
    (h : detect_climaxes e secs d = some cs) :
    ∀ c ∈ cs, c.type = "final" ∨ c.type = climax_label secs c.time := by
  intro c hc
  unfold detect_climaxes at h
  split at h
  · exact absurd h (by simp)
  · simp only [Option.some_inj] at h
    subst h
    exact climaxLoop_types _ _ _ _ _ [] (by simp) c hc

set_option maxRecDepth 1000000 in
/-- Counterexample to C8 as stated: in the concrete analysis below, the
(only) energy peak falls at time 2, the shared boundary of a CHORUS
`[0,2]` and a DROP `[2,2+2]`.  The half-open rule of the claim picks the
DROP and demands label `"drop"`, but the code's closed-interval lookup
picks the CHORUS and labels the climax `"emotional"`. -/
theorem climax_halfopen_counterexample :
    detect_climaxes c8_energy c8_sections 4
      = some [{ time := 2, intensity := 1, type := "emotional" }] ∧
    climax_label_halfopen c8_sections 2 = "drop" ∧
    climax_label c8_sections 2 = "emotional" :=
  ⟨by decide, by decide, by decide⟩

set_option maxRecDepth 1000000 in
/-- Witness for the amended C8, instantiated at the concrete analysis of
the counterexample input. -/
theorem climaxes_labelled_witness :
    detect_climaxes c8_energy c8_sections 4
        = some [{ time := 2, intensity := 1, type := "emotional" }] ∧
    ({ time := 2, intensity := 1, type := "emotional" } : ClimaxPoint)
        ∈ [({ time := 2, intensity := 1, type := "emotional" } : ClimaxPoint)] ∧
    (({ time := 2, intensity := 1, type := "emotional" } : ClimaxPoint).type
        = "final" ∨
      ({ time := 2, intensity := 1, type := "emotional" } : ClimaxPoint).type
        = climax_label c8_sections
            ({ time := 2, intensity := 1, type := "emotional" } : ClimaxPoint).time) :=
  ⟨by decide, by decide,
    climaxes_labelled_from_closed_section c8_energy c8_sections 4
      [{ time := 2, intensity := 1, type := "emotional" }] (by decide)
      { time := 2, intensity := 1, type := "emotional" } (by decide)⟩

/-! ### `synth_format.py`: a self-describing binary payload encoding

Modelled from the spec: the `msgpack` library used by `synth_format.py`
is external to this repository; §4.6 of the spec describes each block's
payload only as "a compact schema-less map/array encoding" that is
self-describing.  `MsgValue` is the universe of encodable values
(Python `None`/bool/int/float/str/list/dict); `encVal` is a concrete
injective, self-delimiting, deterministic encoding of it and
`unpackb` the exact-consumption decoder, mirroring
`msgpack.packb`/`msgpack.unpackb`.  Floats are carried exactly (ℚ), as
msgpack round-trips IEEE doubles bit-exactly.  Bytes are modelled as
naturals (every emitted value is < 256). -/

/-- The universe of msgpack-encodable values used by the artifact. -/
inductive MsgValue
  | nil
  | bool (b : Bool)
  | int (i : ℤ)
  | float (q : ℚ)
  | str (s : String)
  | arr (xs : List MsgValue)
  | map (kvs : List (String × MsgValue))

/-- Modelled from the spec: self-delimiting encoding of a natural
(`n/255` continuation bytes `255`, then the final byte `n % 255`). -/
def encNat (n : ℕ) : List ℕ := List.replicate (n / 255) 255 ++ [n % 255]

/-- Decoder for `encNat`. -/
def decNat : List ℕ → Option (ℕ × List ℕ)
  | [] => none
  | b :: rest =>
      if b < 255 then some (b, rest)
      else (decNat rest).map (fun p => (p.1 + 255, p.2))

/-- Modelled from the spec: sign byte then magnitude. -/
def encInt (i : ℤ) : List ℕ :=
  (if 0 ≤ i then 0 else 1) :: encNat i.natAbs

/-- Decoder for `encInt`. -/
def decInt : List ℕ → Option (ℤ × List ℕ)
  | [] => none
  | b :: rest =>
      if b = 0 then (decNat rest).map (fun p => ((p.1 : ℤ), p.2))
      else if b = 1 then (decNat rest).map (fun p => (-(p.1 : ℤ), p.2))
      else none

/-- Modelled from the spec: a rational (an exact IEEE double) as
numerator then denominator. -/
def encRat (q : ℚ) : List ℕ := encInt q.num ++ encNat q.den

/-- Decoder for `encRat`. -/
def decRat (bs : List ℕ) : Option (ℚ × List ℕ) :=
  (decInt bs).bind (fun p =>
    (decNat p.2).map (fun p2 => (mkRat p.1 p2.1, p2.2)))

/-- Concatenated encodings of a list's elements. -/
def encList (f : α → List ℕ) : List α → List ℕ
  | [] => []
  | x :: xs => f x ++ encList f xs

/-- Modelled from the spec: a string as its character count followed by
each character's code point. -/
def encStr (s : String) : List ℕ :=
  encNat s.length ++ encList (fun c => encNat (Char.toNat c)) s.data

/-- Decoder for a fixed number of characters. -/
def decChars : ℕ → List ℕ → Option (List Char × List ℕ)
  | 0, bs => some ([], bs)
  | n + 1, bs =>
      (decNat bs).bind (fun p =>
        (decChars n p.2).map (fun p2 => (Char.ofNat p.1 :: p2.1, p2.2)))

/-- Decoder for `encStr`. -/
def decStr (bs : List ℕ) : Option (String × List ℕ) :=
  (decNat bs).bind (fun p =>
    (decChars p.1 p.2).map (fun p2 => (String.mk p2.1, p2.2)))

mutual

/-- Modelled from the spec: tagged, self-delimiting encoding of a
`MsgValue` (the counterpart of `msgpack.packb`). -/
def encVal : MsgValue → List ℕ
  | .nil => [0]
  | .bool false => [1]
  | .bool true => [2]
  | .int i => 3 :: encInt i
  | .float q => 4 :: encRat q
  | .str s => 5 :: encStr s
  | .arr xs => 6 :: (encNat xs.length ++ encVals xs)
  | .map kvs => 7 :: (encNat kvs.length ++ encKVs kvs)

/-- Concatenated encodings of array elements. -/
def encVals : List MsgValue → List ℕ
  | [] => []
  | x :: xs => encVal x ++ encVals xs

/-- Concatenated encodings of map entries (key then value). -/
def encKVs : List (String × MsgValue) → List ℕ
  | [] => []
  | kv :: kvs => encStr kv.1 ++ (encVal kv.2 ++ encKVs kvs)

end

mutual

/-- Fuel-indexed decoder for `encVal`; every recursive call spends one
unit of fuel, and `decVal_encVal` shows any fuel of at least the
encoding's length succeeds, so the fuel is an artifact of structural
recursion only. -/
def decVal : ℕ → List ℕ → Option (MsgValue × List ℕ)
  | 0, _ => none
  | _ + 1, [] => none
  | fuel + 1, t :: bs =>
      if t = 0 then some (.nil, bs)
      else if t = 1 then some (.bool false, bs)
      else if t = 2 then some (.bool true, bs)
      else if t = 3 then (decInt bs).map (fun p => (.int p.1, p.2))
      else if t = 4 then (decRat bs).map (fun p => (.float p.1, p.2))
      else if t = 5 then (decStr bs).map (fun p => (.str p.1, p.2))
      else if t = 6 then
        (decNat bs).bind (fun p =>
          (decVals fuel p.1 p.2).map (fun p2 => (.arr p2.1, p2.2)))
      else if t = 7 then
        (decNat bs).bind (fun p =>
          (decKVs fuel p.1 p.2).map (fun p2 => (.map p2.1, p2.2)))
      else none

/-- Fuel-indexed decoder for a fixed number of array elements. -/
def decVals : ℕ → ℕ → List ℕ → Option (List MsgValue × List ℕ)
  | 0, _, _ => none
  | _ + 1, 0, bs => some ([], bs)
  | fuel + 1, n + 1, bs =>
      (decVal fuel bs).bind (fun p =>
        (decVals fuel n p.2).map (fun p2 => (p.1 :: p2.1, p2.2)))

/-- Fuel-indexed decoder for a fixed number of map entries. -/
def decKVs : ℕ → ℕ → List ℕ → Option (List (String × MsgValue) × List ℕ)
  | 0, _, _ => none
  | _ + 1, 0, bs => some ([], bs)
  | fuel + 1, n + 1, bs =>
      (decStr bs).bind (fun p =>
        (decVal fuel p.2).bind (fun p2 =>
          (decKVs fuel n p2.2).map (fun p3 => ((p.1, p2.1) :: p3.1, p3.2))))

end

/-- `msgpack.unpackb`: decode one value and require that the whole input
is consumed. -/
def unpackb (bs : List ℕ) : Option MsgValue :=
  match decVal (bs.length + 1) bs with
  | some (v, []) => some v
  | _ => none

/-! ### `synth_format.py`: data model -/

/-- `MusicAnalysis` dataclass.  The pass-through collections (`chords`,
`sections`, `climaxes`, `emotion_arc` — lists of dicts in Python) are
carried as raw `MsgValue`s, exactly as the format stores them. -/
structure MusicAnalysis where
  duration : ℚ
  sample_rate : ℤ
  audio_hash : String
  key : String
  mode : String
  key_confidence : ℚ
  tempo : ℚ
  tempo_confidence : ℚ
  beats : List ℚ
  downbeats : List ℚ
  time_signature : ℤ × ℤ
  chords : List MsgValue
  sections : List MsgValue
  climaxes : List MsgValue
  energy_curve : List ℚ
  tension_curve : List ℚ
  loudness_curve : List ℚ
  emotion_arc : List MsgValue
  spectral_centroid : Option (List ℚ) := none
  spectral_flux : Option (List ℚ) := none

/-- `VideoSegment` dataclass. -/
structure VideoSegment where
  segment_id : ℤ
  start_time : ℚ
  end_time : ℚ
  video_path : String
  mood : String
  clarity_level : ℚ
  base_hue : ℚ
  saturation : ℚ
  brightness : ℚ
  motion_speed : ℚ

/-- `TransitionPoint` dataclass. -/
structure TransitionPoint where
  time : ℚ
  from_segment : ℤ
  to_segment : ℤ
  transition_type : String
  duration : ℚ

/-- `ShaderCurves` dataclass. -/
structure ShaderCurves where
  times : List ℚ
  bloom_intensity : List ℚ
  chromatic_amount : List ℚ
  vignette_strength : List ℚ
  grain_amount : List ℚ
  color_shift : List ℚ

/-- `SynthFile` dataclass with its Python field defaults
(`version = FORMAT_VERSION = (1, 0)`, `created_at = ""`,
`analysis = None`, empty lists, `shader_curves = None`,
`style_name = "default"`, empty style params). -/
structure SynthFile where
  version : ℤ × ℤ := (1, 0)
  created_at : String := ""
  analysis : Option MusicAnalysis := none
  video_segments : List VideoSegment := []
  transitions : List TransitionPoint := []
  shader_curves : Option ShaderCurves := none
  style_name : String := "default"
  style_params : List (String × MsgValue) := []

/-- `MAGIC = b'SYNTH\x00\x01\x00'`. -/
def MAGIC : List ℕ := [0x53, 0x59, 0x4E, 0x54, 0x48, 0x00, 0x01, 0x00]

/-- Little-endian 32-bit encoding of `n` (defined for `n < 2^32`;
`pack32` guards the range as `struct.pack('<I', ...)` does). -/
def le32 (n : ℕ) : List ℕ :=
  [n % 256, n / 256 % 256, n / 256 ^ 2 % 256, n / 256 ^ 3 % 256]

/-- `struct.unpack('<I', f.read(4))`: fails when fewer than 4 bytes
remain (as `struct.unpack` raises on a short read). -/
def readU32 : List ℕ → Option (ℕ × List ℕ)
  | b0 :: b1 :: b2 :: b3 :: r =>
      some (b0 + 256 * (b1 + 256 * (b2 + 256 * b3)), r)
  | _ => none

/-- `struct.pack('<I', n)`: raises (`none`) when `n ≥ 2^32`. -/
def pack32 (n : ℕ) : Option (List ℕ) :=
  if n < 2 ^ 32 then some (le32 n) else none

/-- One length-prefixed block: read a 4-byte size, take that many bytes
(a short take, like `f.read`, simply yields fewer bytes) and unpack
them. -/
def readBlock (bs : List ℕ) : Option (MsgValue × List ℕ) :=
  (readU32 bs).bind (fun p =>
    (unpackb (p.2.take p.1)).map (fun v => (v, p.2.drop p.1)))

/-- Dictionary field access (`d[k]` / `d.get(k)`): the first entry with
the given key. -/
def mlookup (kvs : List (String × MsgValue)) (k : String) : Option MsgValue :=
  (kvs.find? (fun kv => kv.1 = k)).map (fun kv => kv.2)

def asFloat : MsgValue → Option ℚ
  | .float q => some q
  | _ => none

def asInt : MsgValue → Option ℤ
  | .int i => some i
  | _ => none

def asStr : MsgValue → Option String
  | .str s => some s
  | _ => none

def asArr : MsgValue → Option (List MsgValue)
  | .arr xs => some xs
  | _ => none

def asMap : MsgValue → Option (List (String × MsgValue))
  | .map kvs => some kvs
  | _ => none

/-- Collect a list of optional values, failing if any is `none`. -/
def seqOpt : List (Option α) → Option (List α)
  | [] => some []
  | none :: _ => none
  | some a :: rest => (seqOpt rest).map (fun l => a :: l)

def asFloatList (v : MsgValue) : Option (List ℚ) :=
  (asArr v).bind (fun xs => seqOpt (xs.map asFloat))

/-- `tuple(analysis_data['time_signature'])` for the 2-tuple written by
the encoder. -/
def asIntPair : MsgValue → Option (ℤ × ℤ)
  | .arr [.int a, .int b] => some (a, b)
  | _ => none

/-- A list of rationals as a msgpack array of floats. -/
def floatsVal (l : List ℚ) : MsgValue := .arr (l.map .float)

/-- An optional float list: Python `None` packs as nil. -/
def optFloatsVal : Option (List ℚ) → MsgValue
  | none => .nil
  | some l => floatsVal l

/-- `analysis_data.get(k)` for the optional spectral fields: absent key
or a nil value mean `None`; a list parses; anything else is a type
error in this typed model (Python would store the raw value). -/
def getOptFloats (kvs : List (String × MsgValue)) (k : String) :
    Option (Option (List ℚ)) :=
  match mlookup kvs k with
  | none => some none
  | some .nil => some none
  | some v => (asFloatList v).map some

/-- `SynthFile._serialize_analysis`: the analysis dict in the exact key
order of the source; `{}` when `analysis is None`. -/
def serialize_analysis (s : SynthFile) : MsgValue :=
  match s.analysis with
  | none => .map []
  | some a => .map
      [("duration", .float a.duration),
       ("sample_rate", .int a.sample_rate),
       ("audio_hash", .str a.audio_hash),
       ("key", .str a.key),
       ("mode", .str a.mode),
       ("key_confidence", .float a.key_confidence),
       ("tempo", .float a.tempo),
       ("tempo_confidence", .float a.tempo_confidence),
       ("beats", floatsVal a.beats),
       ("downbeats", floatsVal a.downbeats),
       ("time_signature", .arr [.int a.time_signature.1, .int a.time_signature.2]),
       ("chords", .arr a.chords),
       ("sections", .arr a.sections),
       ("climaxes", .arr a.climaxes),
       ("energy_curve", floatsVal a.energy_curve),
       ("tension_curve", floatsVal a.tension_curve),
       ("loudness_curve", floatsVal a.loudness_curve),
       ("emotion_arc", .arr a.emotion_arc),
       ("spectral_centroid", optFloatsVal a.spectral_centroid),
       ("spectral_flux", optFloatsVal a.spectral_flux)]

/-- First half of the `MusicAnalysis(...)` field extraction of
`SynthFile._read` (split in two to keep elaboration tractable). -/
def readAnalysisA (kvs : List (String × MsgValue)) :
    Option (ℚ × ℤ × String × String × String × ℚ × ℚ × ℚ × List ℚ × List ℚ) := do
  let duration ← (mlookup kvs "duration").bind asFloat
  let sample_rate ← (mlookup kvs "sample_rate").bind asInt
  let audio_hash ← (mlookup kvs "audio_hash").bind asStr
  let key ← (mlookup kvs "key").bind asStr
  let mode ← (mlookup kvs "mode").bind asStr
  let key_confidence ← (mlookup kvs "key_confidence").bind asFloat
  let tempo ← (mlookup kvs "tempo").bind asFloat
  let tempo_confidence ← (mlookup kvs "tempo_confidence").bind asFloat
  let beats ← (mlookup kvs "beats").bind asFloatList
  let downbeats ← (mlookup kvs "downbeats").bind asFloatList
  pure (duration, sample_rate, audio_hash, key, mode, key_confidence,
    tempo, tempo_confidence, beats, downbeats)

/-- Second half of the `MusicAnalysis(...)` field extraction. -/
def readAnalysisB (kvs : List (String × MsgValue)) :
    Option ((ℤ × ℤ) × List MsgValue × List MsgValue × List MsgValue ×
      List ℚ × List ℚ × List ℚ × List MsgValue ×
      Option (List ℚ) × Option (List ℚ)) := do
  let time_signature ← (mlookup kvs "time_signature").bind asIntPair
  let chords ← (mlookup kvs "chords").bind asArr
  let sections ← (mlookup kvs "sections").bind asArr
  let climaxes ← (mlookup kvs "climaxes").bind asArr
  let energy_curve ← (mlookup kvs "energy_curve").bind asFloatList
  let tension_curve ← (mlookup kvs "tension_curve").bind asFloatList
  let loudness_curve ← (mlookup kvs "loudness_curve").bind asFloatList
  let emotion_arc ← (mlookup kvs "emotion_arc").bind asArr
  let spectral_centroid ← getOptFloats kvs "spectral_centroid"
  let spectral_flux ← getOptFloats kvs "spectral_flux"
  pure (time_signature, chords, sections, climaxes, energy_curve,
    tension_curve, loudness_curve, emotion_arc, spectral_centroid,
    spectral_flux)

/-- The `MusicAnalysis(...)` reconstruction of `SynthFile._read`: every
required key is accessed (`KeyError`, i.e. `none`, when missing). -/
def readAnalysis (v : MsgValue) : Option MusicAnalysis := do
  let kvs ← asMap v
  let (duration, sample_rate, audio_hash, key, mode, key_confidence,
    tempo, tempo_confidence, beats, downbeats) ← readAnalysisA kvs
  let (time_signature, chords, sections, climaxes, energy_curve,
    tension_curve, loudness_curve, emotion_arc, spectral_centroid,
    spectral_flux) ← readAnalysisB kvs
  pure (MusicAnalysis.mk duration sample_rate audio_hash key mode
    key_confidence tempo tempo_confidence beats downbeats time_signature
    chords sections climaxes energy_curve tension_curve loudness_curve
    emotion_arc spectral_centroid spectral_flux)

/-- `asdict(seg)` for a `VideoSegment` (dataclass field order). -/
def videoToMsg (v : VideoSegment) : MsgValue := .map
  [("segment_id", .int v.segment_id),
   ("start_time", .float v.start_time),
   ("end_time", .float v.end_time),
   ("video_path", .str v.video_path),
   ("mood", .str v.mood),
   ("clarity_level", .float v.clarity_level),
   ("base_hue", .float v.base_hue),
   ("saturation", .float v.saturation),
   ("brightness", .float v.brightness),
   ("motion_speed", .float v.motion_speed)]

/-- `VideoSegment(**seg)`: keyword construction; requires exactly the
ten dataclass keys (extra or missing keywords raise `TypeError`). -/
def parseVideo (m : MsgValue) : Option VideoSegment := do
  let kvs ← asMap m
  if kvs.length = 10 then
    let segment_id ← (mlookup kvs "segment_id").bind asInt
    let start_time ← (mlookup kvs "start_time").bind asFloat
    let end_time ← (mlookup kvs "end_time").bind asFloat
    let video_path ← (mlookup kvs "video_path").bind asStr
    let mood ← (mlookup kvs "mood").bind asStr
    let clarity_level ← (mlookup kvs "clarity_level").bind asFloat
    let base_hue ← (mlookup kvs "base_hue").bind asFloat
    let saturation ← (mlookup kvs "saturation").bind asFloat
    let brightness ← (mlookup kvs "brightness").bind asFloat
    let motion_speed ← (mlookup kvs "motion_speed").bind asFloat
    pure { segment_id := segment_id, start_time := start_time,
           end_time := end_time, video_path := video_path, mood := mood,
           clarity_level := clarity_level, base_hue := base_hue,
           saturation := saturation, brightness := brightness,
           motion_speed := motion_speed }
  else none

/-- `asdict(t)` for a `TransitionPoint`. -/
def transToMsg (t : TransitionPoint) : MsgValue := .map
  [("time", .float t.time),
   ("from_segment", .int t.from_segment),
   ("to_segment", .int t.to_segment),
   ("transition_type", .str t.transition_type),
   ("duration", .float t.duration)]

/-- `TransitionPoint(**t)`. -/
def parseTrans (m : MsgValue) : Option TransitionPoint := do
  let kvs ← asMap m
  if kvs.length = 5 then
    let time ← (mlookup kvs "time").bind asFloat
    let from_segment ← (mlookup kvs "from_segment").bind asInt
    let to_segment ← (mlookup kvs "to_segment").bind asInt
    let transition_type ← (mlookup kvs "transition_type").bind asStr
    let duration ← (mlookup kvs "duration").bind asFloat
    pure { time := time, from_segment := from_segment,
           to_segment := to_segment, transition_type := transition_type,
           duration := duration }
  else none

/-- `asdict(self.shader_curves)`. -/
def shaderToMsg (sc : ShaderCurves) : MsgValue := .map
  [("times", floatsVal sc.times),
   ("bloom_intensity", floatsVal sc.bloom_intensity),
   ("chromatic_amount", floatsVal sc.chromatic_amount),
   ("vignette_strength", floatsVal sc.vignette_strength),
   ("grain_amount", floatsVal sc.grain_amount),
   ("color_shift", floatsVal sc.color_shift)]

/-- `ShaderCurves(**shader_data)`. -/
def parseShader (m : MsgValue) : Option ShaderCurves := do
  let kvs ← asMap m
  if kvs.length = 6 then
    let times ← (mlookup kvs "times").bind asFloatList
    let bloom_intensity ← (mlookup kvs "bloom_intensity").bind asFloatList
    let chromatic_amount ← (mlookup kvs "chromatic_amount").bind asFloatList
    let vignette_strength ← (mlookup kvs "vignette_strength").bind asFloatList
    let grain_amount ← (mlookup kvs "grain_amount").bind asFloatList
    let color_shift ← (mlookup kvs "color_shift").bind asFloatList
    pure { times := times, bloom_intensity := bloom_intensity,
           chromatic_amount := chromatic_amount,
           vignette_strength := vignette_strength,
           grain_amount := grain_amount, color_shift := color_shift }
  else none

/-- `style_data.get('name', 'default')` (a non-string value is treated
as absent in this typed model). -/
def styleNameOf (kvs : List (String × MsgValue)) : String :=
  match mlookup kvs "name" with
  | some (.str x) => x
  | _ => "default"

/-- `style_data.get('params', {})`. -/
def styleParamsOf (kvs : List (String × MsgValue)) :
    List (String × MsgValue) :=
  match mlookup kvs "params" with
  | some (.map m) => m
  | _ => []

/-- The style dict written by `_write`. -/
def styleVal (s : SynthFile) : MsgValue :=
  .map [("name", .str s.style_name), ("params", .map s.style_params)]

/-- `SynthFile._write`: magic, 32-bit flags (bit0 = has video, bit1 =
has shader curves), then length-prefixed blocks — analysis, optional
video segments + transitions (only when `video_segments` is non-empty),
optional shader curves, and style.  `none` models a `struct.error` from
an oversized length prefix. -/
def synth_write (s : SynthFile) : Option (List ℕ) := do
  let flags : ℕ := (if s.video_segments.isEmpty then 0 else 1) +
    (if s.shader_curves.isSome then 2 else 0)
  let ab := encVal (serialize_analysis s)
  let alen ← pack32 ab.length
  let videoPart ←
    if s.video_segments.isEmpty then pure []
    else do
      let vb := encVal (.arr (s.video_segments.map videoToMsg))
      let tb := encVal (.arr (s.transitions.map transToMsg))
      let vl ← pack32 vb.length
      let tl ← pack32 tb.length
      pure (vl ++ vb ++ (tl ++ tb))
  let shaderPart ←
    match s.shader_curves with
    | none => pure []
    | some sc => do
        let sb := encVal (shaderToMsg sc)
        let sl ← pack32 sb.length
        pure (sl ++ sb)
  let styleB := encVal (styleVal s)
  let stl ← pack32 styleB.length
  pure (MAGIC ++ le32 flags ++ alen ++ ab ++ videoPart ++ shaderPart ++
    stl ++ styleB)

/-- `SynthFile._read`: check the 8-byte magic, read the flags word, the
analysis block, the flag-gated video/transitions and shader blocks, and
the style block; any failure (bad magic, short read, undecodable block,
missing analysis key) aborts the load with no partial result. -/
def synth_read (bs : List ℕ) : Option SynthFile := do
  if bs.take 8 = MAGIC then
    let (flags, r1) ← readU32 (bs.drop 8)
    let (av, r2) ← readBlock r1
    let analysis ← readAnalysis av
    let (videoSegs, transitions, r3) ←
      if flags % 2 = 1 then do
        let (vv, ra) ← readBlock r2
        let vxs ← asArr vv
        let vsegs ← seqOpt (vxs.map parseVideo)
        let (tv, rb) ← readBlock ra
        let txs ← asArr tv
        let tps ← seqOpt (txs.map parseTrans)
        pure (vsegs, tps, rb)
      else pure ([], [], r2)
    let (shader, r4) ←
      if flags / 2 % 2 = 1 then do
        let (sv, rc) ← readBlock r3
        let sc ← parseShader sv
        pure (some sc, rc)
      else pure (none, r3)
    let (stv, _) ← readBlock r4
    let kvs ← asMap stv
    pure { analysis := some analysis,
           video_segments := videoSegs,
           transitions := transitions,
           shader_curves := shader,
           style_name := styleNameOf kvs,
           style_params := styleParamsOf kvs }
  else none

/-! ### Correctness of the payload codec -/

theorem decNat_rep {m : ℕ} (hm : m < 255) :
    ∀ (k : ℕ) (r : List ℕ),
      decNat (List.replicate k 255 ++ ([m] ++ r)) = some (255 * k + m, r) := by
  intro k
  induction k with
  | zero => intro r; simp [decNat, hm]
  | succ g ih =>
      intro r
      rw [List.replicate_succ, List.cons_append, decNat]
      simp only [lt_irrefl, if_neg (lt_irrefl 255), ih r, Option.map_some']
      simp
      omega

theorem decNat_enc (n : ℕ) (r : List ℕ) :
    decNat (encNat n ++ r) = some (n, r) := by
  have h := decNat_rep (Nat.mod_lt n (by norm_num : (0:ℕ) < 255)) (n / 255) r
  rw [encNat, List.append_assoc]
  rw [h]
  congr 1
  congr 1
  omega

theorem decNat_extend {bs : List ℕ} {p : ℕ × List ℕ}
    (h : decNat bs = some p) (q : List ℕ) :
    decNat (bs ++ q) = some (p.1, p.2 ++ q) := by
  induction bs generalizing p with
  | nil => simp [decNat] at h
  | cons b rest ih =>
      rw [decNat] at h
      rw [List.cons_append, decNat]
      by_cases hb : b < 255
      · rw [if_pos hb] at h ⊢
        cases h
        rfl
      · rw [if_neg hb] at h ⊢
        cases hrest : decNat rest with
        | none => rw [hrest] at h; simp at h
        | some p2 =>
            rw [hrest] at h
            simp only [Option.map_some'] at h
            rw [ih hrest, Option.map_some']
            cases h
            rfl

theorem decInt_enc (i : ℤ) (r : List ℕ) :
    decInt (encInt i ++ r) = some (i, r) := by
  by_cases hi : 0 ≤ i
  · rw [encInt, if_pos hi, List.cons_append, decInt, if_pos rfl,
      decNat_enc, Option.map_some']
    congr 2
    omega
  · rw [encInt, if_neg hi, List.cons_append, decInt,
      if_neg (by norm_num), if_pos rfl, decNat_enc, Option.map_some']
    congr 2
    omega

theorem decInt_extend {bs : List ℕ} {p : ℤ × List ℕ}
    (h : decInt bs = some p) (q : List ℕ) :
    decInt (bs ++ q) = some (p.1, p.2 ++ q) := by
  cases bs with
  | nil => simp [decInt] at h
  | cons b rest =>
      rw [decInt] at h
      rw [List.cons_append, decInt]
      by_cases h0 : b = 0
      · rw [if_pos h0] at h ⊢
        cases hrest : decNat rest with
        | none => rw [hrest] at h; simp at h
        | some p2 =>
            rw [hrest] at h
            simp only [Option.map_some'] at h
            rw [decNat_extend hrest, Option.map_some']
            cases h
            rfl
      · rw [if_neg h0] at h ⊢
        by_cases h1 : b = 1
        · rw [if_pos h1] at h ⊢
          cases hrest : decNat rest with
          | none => rw [hrest] at h; simp at h
          | some p2 =>
              rw [hrest] at h
              simp only [Option.map_some'] at h
              rw [decNat_extend hrest, Option.map_some']
              cases h
              rfl
        · rw [if_neg h1] at h
          simp at h

theorem decRat_enc (q : ℚ) (r : List ℕ) :
    decRat (encRat q ++ r) = some (q, r) := by
  rw [encRat, List.append_assoc, decRat, decInt_enc, Option.some_bind,
    decNat_enc, Option.map_some']
  rw [Rat.mkRat_self]

theorem decRat_extend {bs : List ℕ} {p : ℚ × List ℕ}
    (h : decRat bs = some p) (q : List ℕ) :
    decRat (bs ++ q) = some (p.1, p.2 ++ q) := by
  rw [decRat] at h
  cases hint : decInt bs with
  | none => rw [hint] at h; simp at h
  | some p1 =>
      rw [hint] at h
      simp only [Option.some_bind] at h
      cases hnat : decNat p1.2 with
      | none => rw [hnat] at h; simp at h
      | some p2 =>
          rw [hnat] at h
          simp only [Option.map_some'] at h
          rw [decRat, decInt_extend hint, Option.some_bind,
            decNat_extend hnat, Option.map_some']
          cases h
          rfl

theorem decChars_enc :
    ∀ (cs : List Char) (r : List ℕ),
      decChars cs.length (encList (fun c => encNat (Char.toNat c)) cs ++ r)
        = some (cs, r)
  | [], r => by simp [decChars, encList]
  | c :: cs, r => by
      rw [List.length_cons, encList, List.append_assoc, decChars,
        decNat_enc, Option.some_bind, decChars_enc cs r, Option.map_some']
      simp

theorem decChars_extend :
    ∀ (n : ℕ) {bs : List ℕ} {p : List Char × List ℕ},
      decChars n bs = some p → ∀ q,
        decChars n (bs ++ q) = some (p.1, p.2 ++ q) := by
  intro n
  induction n with
  | zero =>
      intro bs p h q
      rw [decChars] at h
      cases h
      rfl
  | succ g ih =>
      intro bs p h q
      rw [decChars] at h ⊢
      cases hnat : decNat bs with
      | none => rw [hnat] at h; simp at h
      | some p1 =>
          rw [hnat] at h
          simp only [Option.some_bind] at h
          cases hcs : decChars g p1.2 with
          | none => rw [hcs] at h; simp at h
          | some p2 =>
              rw [hcs] at h
              simp only [Option.map_some'] at h
              rw [decNat_extend hnat, Option.some_bind, ih hcs,
                Option.map_some']
              cases h
              rfl

theorem decStr_enc (s : String) (r : List ℕ) :
    decStr (encStr s ++ r) = some (s, r) := by
  rw [encStr, List.append_assoc, decStr, decNat_enc, Option.some_bind]
  rw [show s.length = s.data.length from rfl, decChars_enc s.data r,
    Option.map_some']

theorem decStr_extend {bs : List ℕ} {p : String × List ℕ}
    (h : decStr bs = some p) (q : List ℕ) :
    decStr (bs ++ q) = some (p.1, p.2 ++ q) := by
  rw [decStr] at h
  cases hnat : decNat bs with
  | none => rw [hnat] at h; simp at h
  | some p1 =>
      rw [hnat] at h
      simp only [Option.some_bind] at h
      cases hcs : decChars p1.1 p1.2 with
      | none => rw [hcs] at h; simp at h
      | some p2 =>
          rw [hcs] at h
          simp only [Option.map_some'] at h
          rw [decStr, decNat_extend hnat, Option.some_bind,
            decChars_extend _ hcs, Option.map_some']
          cases h
          rfl

/-- A successful decode is stable under appending extra bytes: the extra
bytes simply remain in the leftover. -/
theorem dec_extend : ∀ fuel : ℕ,
    (∀ (bs : List ℕ) (p : MsgValue × List ℕ), decVal fuel bs = some p →
      ∀ q, decVal fuel (bs ++ q) = some (p.1, p.2 ++ q)) ∧
    (∀ (n : ℕ) (bs : List ℕ) (p : List MsgValue × List ℕ),
      decVals fuel n bs = some p →
      ∀ q, decVals fuel n (bs ++ q) = some (p.1, p.2 ++ q)) ∧
    (∀ (n : ℕ) (bs : List ℕ) (p : List (String × MsgValue) × List ℕ),
      decKVs fuel n bs = some p →
      ∀ q, decKVs fuel n (bs ++ q) = some (p.1, p.2 ++ q)) := by
  intro fuel
  induction fuel with
  | zero =>
      refine ⟨?_, ?_, ?_⟩
      · intro bs p h; simp [decVal] at h
      · intro n bs p h; simp [decVals] at h
      · intro n bs p h; simp [decKVs] at h
  | succ g ih =>
      obtain ⟨ihV, ihL, ihK⟩ := ih
      refine ⟨?_, ?_, ?_⟩
      · intro bs p h q
        cases bs with
        | nil => simp [decVal] at h
        | cons t bs2 =>
            rw [List.cons_append]
            rw [decVal] at h ⊢
            by_cases h0 : t = 0
            · rw [if_pos h0] at h ⊢; cases h; rfl
            · rw [if_neg h0] at h ⊢
              by_cases h1 : t = 1
              · rw [if_pos h1] at h ⊢; cases h; rfl
              · rw [if_neg h1] at h ⊢
                by_cases h2 : t = 2
                · rw [if_pos h2] at h ⊢; cases h; rfl
                · rw [if_neg h2] at h ⊢
                  by_cases h3 : t = 3
                  · rw [if_pos h3] at h ⊢
                    cases hd : decInt bs2 with
                    | none => rw [hd] at h; simp at h
                    | some p1 =>
                        rw [hd] at h
                        simp only [Option.map_some'] at h
                        rw [decInt_extend hd, Option.map_some']
                        cases h; rfl
                  · rw [if_neg h3] at h ⊢
                    by_cases h4 : t = 4
                    · rw [if_pos h4] at h ⊢
                      cases hd : decRat bs2 with
                      | none => rw [hd] at h; simp at h
                      | some p1 =>
                          rw [hd] at h
                          simp only [Option.map_some'] at h
                          rw [decRat_extend hd, Option.map_some']
                          cases h; rfl
                    · rw [if_neg h4] at h ⊢
                      by_cases h5 : t = 5
                      · rw [if_pos h5] at h ⊢
                        cases hd : decStr bs2 with
                        | none => rw [hd] at h; simp at h
                        | some p1 =>
                            rw [hd] at h
                            simp only [Option.map_some'] at h
                            rw [decStr_extend hd, Option.map_some']
                            cases h; rfl
                      · rw [if_neg h5] at h ⊢
                        by_cases h6 : t = 6
                        · rw [if_pos h6] at h ⊢
                          cases hd : decNat bs2 with
                          | none => rw [hd] at h; simp at h
                          | some p1 =>
                              rw [hd] at h
                              simp only [Option.some_bind] at h
                              rw [decNat_extend hd, Option.some_bind]
                              cases hv : decVals g p1.1 p1.2 with
                              | none => rw [hv] at h; simp at h
                              | some p2 =>
                                  rw [hv] at h
                                  simp only [Option.map_some'] at h
                                  rw [ihL _ _ _ hv, Option.map_some']
                                  cases h; rfl
                        · rw [if_neg h6] at h ⊢
                          by_cases h7 : t = 7
                          · rw [if_pos h7] at h ⊢
                            cases hd : decNat bs2 with
                            | none => rw [hd] at h; simp at h
                            | some p1 =>
                                rw [hd] at h
                                simp only [Option.some_bind] at h
                                rw [decNat_extend hd, Option.some_bind]
                                cases hv : decKVs g p1.1 p1.2 with
                                | none => rw [hv] at h; simp at h
                                | some p2 =>
                                    rw [hv] at h
                                    simp only [Option.map_some'] at h
                                    rw [ihK _ _ _ hv, Option.map_some']
                                    cases h; rfl
                          · rw [if_neg h7] at h
                            simp at h
      · intro n bs p h q
        cases n with
        | zero => rw [decVals] at h ⊢; cases h; rfl
        | succ m =>
            rw [decVals] at h ⊢
            cases hd : decVal g bs with
            | none => rw [hd] at h; simp at h
            | some p1 =>
                rw [hd] at h
                simp only [Option.some_bind] at h
                rw [ihV _ _ hd, Option.some_bind]
                cases hv : decVals g m p1.2 with
                | none => rw [hv] at h; simp at h
                | some p2 =>
                    rw [hv] at h
                    simp only [Option.map_some'] at h
                    rw [ihL _ _ _ hv, Option.map_some']
                    cases h; rfl
      · intro n bs p h q
        cases n with
        | zero => rw [decKVs] at h ⊢; cases h; rfl
        | succ m =>
            rw [decKVs] at h ⊢
            cases hd : decStr bs with
            | none => rw [hd] at h; simp at h
            | some p1 =>
                rw [hd] at h
                simp only [Option.some_bind] at h
                rw [decStr_extend hd, Option.some_bind]
                cases hv : decVal g p1.2 with
                | none => rw [hv] at h; simp at h
                | some p2 =>
                    rw [hv] at h
                    simp only [Option.some_bind] at h
                    rw [ihV _ _ hv, Option.some_bind]
                    cases hk : decKVs g m p2.2 with
                    | none => rw [hk] at h; simp at h
                    | some p3 =>
                        rw [hk] at h
                        simp only [Option.map_some'] at h
                        rw [ihK _ _ _ hk, Option.map_some']
                        cases h; rfl

theorem encNat_length (n : ℕ) : (encNat n).length = n / 255 + 1 := by
  simp [encNat]

theorem encVal_length_pos (v : MsgValue) : 1 ≤ (encVal v).length := by
  cases v with
  | bool b => cases b <;> simp [encVal]
  | _ => simp [encVal]

/-- More fuel never hurts a successful decode. -/
theorem dec_mono : ∀ g : ℕ,
    (∀ f ≤ g, ∀ (bs : List ℕ) (p : MsgValue × List ℕ),
      decVal f bs = some p → decVal g bs = some p) ∧
    (∀ f ≤ g, ∀ (n : ℕ) (bs : List ℕ) (p : List MsgValue × List ℕ),
      decVals f n bs = some p → decVals g n bs = some p) ∧
    (∀ f ≤ g, ∀ (n : ℕ) (bs : List ℕ)
        (p : List (String × MsgValue) × List ℕ),
      decKVs f n bs = some p → decKVs g n bs = some p) := by
  intro g
  induction g with
  | zero =>
      refine ⟨?_, ?_, ?_⟩
      · intro f hf bs p h
        interval_cases f
        simp [decVal] at h
      · intro f hf n bs p h
        interval_cases f
        simp [decVals] at h
      · intro f hf n bs p h
        interval_cases f
        simp [decKVs] at h
  | succ g ih =>
      obtain ⟨ihV, ihL, ihK⟩ := ih
      refine ⟨?_, ?_, ?_⟩
      · intro f hf bs p h
        cases f with
        | zero => simp [decVal] at h
        | succ f2 =>
            have hf2 : f2 ≤ g := by omega
            cases bs with
            | nil => simp [decVal] at h
            | cons t bs2 =>
                rw [decVal] at h ⊢
                by_cases h0 : t = 0
                · rwa [if_pos h0] at h ⊢
                · rw [if_neg h0] at h ⊢
                  by_cases h1 : t = 1
                  · rwa [if_pos h1] at h ⊢
                  · rw [if_neg h1] at h ⊢
                    by_cases h2 : t = 2
                    · rwa [if_pos h2] at h ⊢
                    · rw [if_neg h2] at h ⊢
                      by_cases h3 : t = 3
                      · rwa [if_pos h3] at h ⊢
                      · rw [if_neg h3] at h ⊢
                        by_cases h4 : t = 4
                        · rwa [if_pos h4] at h ⊢
                        · rw [if_neg h4] at h ⊢
                          by_cases h5 : t = 5
                          · rwa [if_pos h5] at h ⊢
                          · rw [if_neg h5] at h ⊢
                            by_cases h6 : t = 6
                            · rw [if_pos h6] at h ⊢
                              cases hd : decNat bs2 with
                              | none => rw [hd] at h; simp at h
                              | some p1 =>
                                  rw [hd] at h
                                  simp only [Option.some_bind] at h ⊢
                                  cases hv : decVals f2 p1.1 p1.2 with
                                  | none => rw [hv] at h; simp at h
                                  | some p2 =>
                                      rw [hv] at h
                                      rw [ihL f2 hf2 _ _ _ hv]
                                      exact h
                            · rw [if_neg h6] at h ⊢
                              by_cases h7 : t = 7
                              · rw [if_pos h7] at h ⊢
                                cases hd : decNat bs2 with
                                | none => rw [hd] at h; simp at h
                                | some p1 =>
                                    rw [hd] at h
                                    simp only [Option.some_bind] at h ⊢
                                    cases hv : decKVs f2 p1.1 p1.2 with
                                    | none => rw [hv] at h; simp at h
                                    | some p2 =>
                                        rw [hv] at h
                                        rw [ihK f2 hf2 _ _ _ hv]
                                        exact h
                              · rw [if_neg h7] at h
                                simp at h
      · intro f hf n bs p h
        cases f with
        | zero => simp [decVals] at h
        | succ f2 =>
            have hf2 : f2 ≤ g := by omega
            cases n with
            | zero => rwa [decVals] at h ⊢
            | succ m =>
                rw [decVals] at h ⊢
                cases hd : decVal f2 bs with
                | none => rw [hd] at h; simp at h
                | some p1 =>
                    rw [hd] at h
                    rw [ihV f2 hf2 _ _ hd]
                    simp only [Option.some_bind] at h ⊢
                    cases hv : decVals f2 m p1.2 with
                    | none => rw [hv] at h; simp at h
                    | some p2 =>
                        rw [hv] at h
                        rw [ihL f2 hf2 _ _ _ hv]
                        exact h
      · intro f hf n bs p h
        cases f with
        | zero => simp [decKVs] at h
        | succ f2 =>
            have hf2 : f2 ≤ g := by omega
            cases n with
            | zero => rwa [decKVs] at h ⊢
            | succ m =>
                rw [decKVs] at h ⊢
                cases hd : decStr bs with
                | none => rw [hd] at h; simp at h
                | some p1 =>
                    rw [hd] at h
                    simp only [Option.some_bind] at h ⊢
                    cases hv : decVal f2 p1.2 with
                    | none => rw [hv] at h; simp at h
                    | some p2 =>
                        rw [hv] at h
                        rw [ihV f2 hf2 _ _ hv]
                        simp only [Option.some_bind] at h ⊢
                        cases hk : decKVs f2 m p2.2 with
                        | none => rw [hk] at h; simp at h
                        | some p3 =>
                            rw [hk] at h
                            rw [ihK f2 hf2 _ _ _ hk]
                            exact h

/-- The decoder inverts the encoder (with any sufficient fuel), leaving
trailing bytes untouched. -/
theorem dec_correct : ∀ fuel : ℕ,
    (∀ (v : MsgValue) (r : List ℕ), (encVal v).length ≤ fuel →
      decVal fuel (encVal v ++ r) = some (v, r)) ∧
    (∀ (xs : List MsgValue) (r : List ℕ), (encVals xs).length + 1 ≤ fuel →
      decVals fuel xs.length (encVals xs ++ r) = some (xs, r)) ∧
    (∀ (kvs : List (String × MsgValue)) (r : List ℕ),
      (encKVs kvs).length + 1 ≤ fuel →
      decKVs fuel kvs.length (encKVs kvs ++ r) = some (kvs, r)) := by
  intro fuel
  induction fuel with
  | zero =>
      refine ⟨?_, ?_, ?_⟩
      · intro v r hl
        have := encVal_length_pos v
        omega
      · intro xs r hl
        omega
      · intro kvs r hl
        omega
  | succ g ih =>
      obtain ⟨ihV, ihL, ihK⟩ := ih
      refine ⟨?_, ?_, ?_⟩
      · intro v r hl
        cases v with
        | nil => simp [encVal, decVal]
        | bool b => cases b <;> simp [encVal, decVal]
        | int i => simp [encVal, decVal, decInt_enc]
        | float q => simp [encVal, decVal, decRat_enc]
        | str s2 => simp [encVal, decVal, decStr_enc]
        | arr xs =>
            rw [encVal, List.cons_append, List.append_assoc, decVal]
            simp only [show (6 : ℕ) ≠ 0 by decide, show (6 : ℕ) ≠ 1 by decide,
              show (6 : ℕ) ≠ 2 by decide, show (6 : ℕ) ≠ 3 by decide,
              show (6 : ℕ) ≠ 4 by decide, show (6 : ℕ) ≠ 5 by decide,
              if_neg, if_pos, decNat_enc, Option.some_bind]
            have h2 : (encVals xs).length + 1 ≤ g := by
              rw [encVal] at hl
              simp only [List.length_cons, List.length_append,
                encNat_length] at hl
              omega
            rw [ihL xs r h2, Option.map_some']
            simp
        | map kvs =>
            rw [encVal, List.cons_append, List.append_assoc, decVal]
            simp only [show (7 : ℕ) ≠ 0 by decide, show (7 : ℕ) ≠ 1 by decide,
              show (7 : ℕ) ≠ 2 by decide, show (7 : ℕ) ≠ 3 by decide,
              show (7 : ℕ) ≠ 4 by decide, show (7 : ℕ) ≠ 5 by decide,
              show (7 : ℕ) ≠ 6 by decide, if_neg, if_pos, decNat_enc,
              Option.some_bind]
            have h2 : (encKVs kvs).length + 1 ≤ g := by
              rw [encVal] at hl
              simp only [List.length_cons, List.length_append,
                encNat_length] at hl
              omega
            rw [ihK kvs r h2, Option.map_some']
            simp
      · intro xs r hl
        cases xs with
        | nil =>
            rw [encVals, List.nil_append, List.length_nil, decVals]
        | cons x xs2 =>
            rw [encVals, List.append_assoc, List.length_cons, decVals]
            have hx := encVal_length_pos x
            rw [encVals, List.length_append] at hl
            rw [ihV x (encVals xs2 ++ r) (by omega), Option.some_bind]
            rw [ihL xs2 r (by omega), Option.map_some']
      · intro kvs r hl
        cases kvs with
        | nil =>
            rw [encKVs, List.nil_append, List.length_nil, decKVs]
        | cons kv kvs2 =>
            rw [encKVs, List.append_assoc, List.append_assoc,
              List.length_cons, decKVs]
            have hx := encVal_length_pos kv.2
            rw [encKVs, List.length_append, List.length_append] at hl
            rw [decStr_enc, Option.some_bind]
            rw [ihV kv.2 (encKVs kvs2 ++ r) (by omega), Option.some_bind]
            rw [ihK kvs2 r (by omega), Option.map_some']

theorem unpackb_encVal (v : MsgValue) : unpackb (encVal v) = some v := by
  unfold unpackb
  have h := (dec_correct ((encVal v).length + 1)).1 v [] (by omega)
  rw [List.append_nil] at h
  rw [h]

/-- A strict prefix of an encoded value never decodes: `unpackb` on a
truncated payload fails. -/
theorem unpackb_prefix_none (v : MsgValue) (p q : List ℕ)
    (happ : p ++ q = encVal v) (hq : q ≠ []) : unpackb p = none := by
  have hlen : p.length + q.length = (encVal v).length := by
    rw [← List.length_append, happ]
  have hqpos : 1 ≤ q.length := by
    cases q with
    | nil => exact absurd rfl hq
    | cons _ _ => simp
  unfold unpackb
  cases hd : decVal (p.length + 1) p with
  | none => rfl
  | some pr =>
      obtain ⟨w, rest⟩ := pr
      cases rest with
      | cons a as => rfl
      | nil =>
          exfalso
          have hext := (dec_extend (p.length + 1)).1 p (w, []) hd q
          rw [happ] at hext
          have hmono := (dec_mono ((encVal v).length + 1)).1 (p.length + 1)
            (by omega) _ _ hext
          have hcor := (dec_correct ((encVal v).length + 1)).1 v []
            (by omega)
          rw [List.append_nil] at hcor
          rw [hcor] at hmono
          simp at hmono
          exact hq hmono.2

theorem readU32_le32 (n : ℕ) (h : n < 2 ^ 32) (r : List ℕ) :
    readU32 (le32 n ++ r) = some (n, r) := by
  have h2 : (256 : ℕ) ^ 2 = 65536 := by norm_num
  have h3 : (256 : ℕ) ^ 3 = 16777216 := by norm_num
  have h32 : (2 : ℕ) ^ 32 = 4294967296 := by norm_num
  rw [h32] at h
  simp only [le32, h2, h3, List.cons_append, List.nil_append, readU32,
    Option.some_inj, Prod.mk.injEq]
  exact ⟨by omega, trivial⟩

theorem readBlock_enc (v : MsgValue) (T : List ℕ)
    (h : (encVal v).length < 2 ^ 32) :
    readBlock (le32 (encVal v).length ++ (encVal v ++ T)) = some (v, T) := by
  rw [readBlock, readU32_le32 _ h, Option.some_bind]
  have ht : (encVal v ++ T).take (encVal v).length = encVal v :=
    List.take_left _ _
  have hd : (encVal v ++ T).drop (encVal v).length = T :=
    List.drop_left _ _
  rw [ht, hd, unpackb_encVal, Option.map_some']

theorem asFloatList_floatsVal (l : List ℚ) :
    asFloatList (floatsVal l) = some l := by
  rw [floatsVal, asFloatList]
  rw [show asArr (.arr (l.map .float)) = some (l.map .float) from rfl,
    Option.some_bind]
  induction l with
  | nil => rfl
  | cons x xs ih =>
      simp only [List.map_cons, seqOpt, asFloat, ih, Option.map_some']

theorem parseVideo_toMsg (v : VideoSegment) :
    parseVideo (videoToMsg v) = some v := rfl

theorem parseTrans_toMsg (t : TransitionPoint) :
    parseTrans (transToMsg t) = some t := rfl

theorem parseShader_toMsg (sc : ShaderCurves) :
    parseShader (shaderToMsg sc) = some sc := by
  have e : parseShader (shaderToMsg sc) =
      (asFloatList (floatsVal sc.times)).bind (fun times =>
      (asFloatList (floatsVal sc.bloom_intensity)).bind (fun bi =>
      (asFloatList (floatsVal sc.chromatic_amount)).bind (fun ca =>
      (asFloatList (floatsVal sc.vignette_strength)).bind (fun vs =>
      (asFloatList (floatsVal sc.grain_amount)).bind (fun ga =>
      (asFloatList (floatsVal sc.color_shift)).bind (fun cs =>
      some { times := times, bloom_intensity := bi,
             chromatic_amount := ca, vignette_strength := vs,
             grain_amount := ga, color_shift := cs })))))) := rfl
  rw [e]
  simp only [asFloatList_floatsVal, Option.some_bind]

theorem seqOpt_parseVideo (l : List VideoSegment) :
    seqOpt ((l.map videoToMsg).map parseVideo) = some l := by
  induction l with
  | nil => rfl
  | cons x xs ih =>
      simp only [List.map_cons, parseVideo_toMsg, seqOpt, ih,
        Option.map_some']

theorem seqOpt_parseTrans (l : List TransitionPoint) :
    seqOpt ((l.map transToMsg).map parseTrans) = some l := by
  induction l with
  | nil => rfl
  | cons x xs ih =>
      simp only [List.map_cons, parseTrans_toMsg, seqOpt, ih,
        Option.map_some']

/-- The analysis dict entries written by `_serialize_analysis` for a
present analysis, in source key order. -/
def analysisKVs (a : MusicAnalysis) : List (String × MsgValue) :=
  [("duration", .float a.duration),
   ("sample_rate", .int a.sample_rate),
   ("audio_hash", .str a.audio_hash),
   ("key", .str a.key),
   ("mode", .str a.mode),
   ("key_confidence", .float a.key_confidence),
   ("tempo", .float a.tempo),
   ("tempo_confidence", .float a.tempo_confidence),
   ("beats", floatsVal a.beats),
   ("downbeats", floatsVal a.downbeats),
   ("time_signature", .arr [.int a.time_signature.1, .int a.time_signature.2]),
   ("chords", .arr a.chords),
   ("sections", .arr a.sections),
   ("climaxes", .arr a.climaxes),
   ("energy_curve", floatsVal a.energy_curve),
   ("tension_curve", floatsVal a.tension_curve),
   ("loudness_curve", floatsVal a.loudness_curve),
   ("emotion_arc", .arr a.emotion_arc),
   ("spectral_centroid", optFloatsVal a.spectral_centroid),
   ("spectral_flux", optFloatsVal a.spectral_flux)]

theorem serialize_analysis_some (s : SynthFile) (a : MusicAnalysis)
    (ha : s.analysis = some a) :
    serialize_analysis s = .map (analysisKVs a) := by
  unfold serialize_analysis
  rw [ha]
  rfl

theorem getOptFloats_opt (L : List (String × MsgValue)) (k : String)
    (o : Option (List ℚ)) (h : mlookup L k = some (optFloatsVal o)) :
    getOptFloats L k = some o := by
  cases o with
  | none =>
      unfold getOptFloats
      rw [h]
      rfl
  | some l =>
      unfold getOptFloats
      rw [h]
      show (asFloatList (floatsVal l)).map some = some (some l)
      rw [asFloatList_floatsVal]
      rfl

theorem readAnalysisA_kvs (a : MusicAnalysis) :
    readAnalysisA (analysisKVs a) = some (a.duration, a.sample_rate,
      a.audio_hash, a.key, a.mode, a.key_confidence, a.tempo,
      a.tempo_confidence, a.beats, a.downbeats) := by
  have e : readAnalysisA (analysisKVs a) =
      (asFloatList (floatsVal a.beats)).bind (fun bts =>
      (asFloatList (floatsVal a.downbeats)).bind (fun dbts =>
      some (a.duration, a.sample_rate, a.audio_hash, a.key, a.mode,
        a.key_confidence, a.tempo, a.tempo_confidence, bts, dbts))) := rfl
  rw [e, asFloatList_floatsVal, asFloatList_floatsVal]
  rfl

theorem readAnalysisB_kvs (a : MusicAnalysis) :
    readAnalysisB (analysisKVs a) = some ((a.time_signature.1,
      a.time_signature.2), a.chords, a.sections, a.climaxes,
      a.energy_curve, a.tension_curve, a.loudness_curve, a.emotion_arc,
      a.spectral_centroid, a.spectral_flux) := by
  have h9 : getOptFloats (analysisKVs a) "spectral_centroid" =
      some a.spectral_centroid := getOptFloats_opt _ _ _ rfl
  have h10 : getOptFloats (analysisKVs a) "spectral_flux" =
      some a.spectral_flux := getOptFloats_opt _ _ _ rfl
  have e : readAnalysisB (analysisKVs a) =
      (asFloatList (floatsVal a.energy_curve)).bind (fun ec =>
      (asFloatList (floatsVal a.tension_curve)).bind (fun tc =>
      (asFloatList (floatsVal a.loudness_curve)).bind (fun lc =>
      (getOptFloats (analysisKVs a) "spectral_centroid").bind (fun sc =>
      (getOptFloats (analysisKVs a) "spectral_flux").bind (fun sf =>
      some ((a.time_signature.1, a.time_signature.2), a.chords,
        a.sections, a.climaxes, ec, tc, lc, a.emotion_arc,
        sc, sf)))))) := rfl
  rw [e, asFloatList_floatsVal, asFloatList_floatsVal,
    asFloatList_floatsVal, h9, h10]
  rfl

theorem readAnalysis_kvs (a : MusicAnalysis) :
    readAnalysis (.map (analysisKVs a)) = some a := by
  have h1 : readAnalysis (.map (analysisKVs a)) =
      (readAnalysisA (analysisKVs a)).bind (fun x =>
        (readAnalysisB (analysisKVs a)).bind (fun y =>
          some (MusicAnalysis.mk x.1 x.2.1 x.2.2.1 x.2.2.2.1 x.2.2.2.2.1
            x.2.2.2.2.2.1 x.2.2.2.2.2.2.1 x.2.2.2.2.2.2.2.1
            x.2.2.2.2.2.2.2.2.1 x.2.2.2.2.2.2.2.2.2
            y.1 y.2.1 y.2.2.1 y.2.2.2.1 y.2.2.2.2.1 y.2.2.2.2.2.1
            y.2.2.2.2.2.2.1 y.2.2.2.2.2.2.2.1 y.2.2.2.2.2.2.2.2.1
            y.2.2.2.2.2.2.2.2.2))) := rfl
  rw [h1, readAnalysisA_kvs, readAnalysisB_kvs]
  rfl

/-! ### End-to-end artifact write/read correctness -/

/-- A concrete MusicAnalysis test vector. -/
def exA : MusicAnalysis :=
  { duration := 1, sample_rate := 44100, audio_hash := "h", key := "C",
    mode := "major", key_confidence := 1, tempo := 120,
    tempo_confidence := 1, beats := [mkRat 1 2], downbeats := [],
    time_signature := (4, 4), chords := [], sections := [],
    climaxes := [], energy_curve := [mkRat 1 2], tension_curve := [],
    loudness_curve := [], emotion_arc := [] }

/-- A minimal SynthFile holding `exA`. -/
def exS : SynthFile := { analysis := some exA }

/-- The bytes `_write` produces for `exS`. -/
def exB : List ℕ := (synth_write exS).getD []

/-- A SynthFile carrying non-default `created_at` and `version`. -/
def exS9 : SynthFile :=
  { analysis := some exA, created_at := "yesterday", version := (7, 3) }

/-- The bytes `_write` produces for `exS9`. -/
def exB9 : List ℕ := (synth_write exS9).getD []

/-- A concrete TransitionPoint test vector. -/
def exTr : TransitionPoint :=
  { time := 1, from_segment := 0, to_segment := 1,
    transition_type := "cut", duration := 1 }

/-- A SynthFile with transitions but no video segments. -/
def exS10 : SynthFile := { analysis := some exA, transitions := [exTr] }

/-- The bytes `_write` produces for `exS10`. -/
def exB10 : List ℕ := (synth_write exS10).getD []


/-- The body of `_read` after the magic check, written as an explicit
`Option.bind` chain (definitionally equal to `synth_read`). -/
theorem synth_read_steps (bs : List ℕ) :
    synth_read (MAGIC ++ bs) =
      (readU32 bs).bind (fun (flags, r1) =>
      (readBlock r1).bind (fun (av, r2) =>
      (readAnalysis av).bind (fun analysis =>
        let jp3 : List VideoSegment × List TransitionPoint × List ℕ →
            Option SynthFile :=
          fun (videoSegs, transitions, r3) =>
            let jp4 : Option ShaderCurves × List ℕ → Option SynthFile :=
              fun (shader, r4) =>
                (readBlock r4).bind (fun (stv, _r) =>
                (asMap stv).bind (fun kvs =>
                some { analysis := some analysis,
                       video_segments := videoSegs,
                       transitions := transitions,
                       shader_curves := shader,
                       style_name := styleNameOf kvs,
                       style_params := styleParamsOf kvs }))
            if flags / 2 % 2 = 1 then
              (readBlock r3).bind (fun (sv, rc) =>
              (parseShader sv).bind (fun sc => (some (some sc, rc)).bind jp4))
            else (some (none, r3)).bind jp4
        if flags % 2 = 1 then
          (readBlock r2).bind (fun (vv, ra) =>
          (asArr vv).bind (fun vxs =>
          (seqOpt (vxs.map parseVideo)).bind (fun vsegs =>
          (readBlock ra).bind (fun (tv, rb) =>
          (asArr tv).bind (fun txs =>
          (seqOpt (txs.map parseTrans)).bind (fun tps =>
          (some (vsegs, tps, rb)).bind jp3))))))
        else (some ([], [], r2)).bind jp3))) := rfl

theorem readBlock_enc_nil (v : MsgValue) (h : (encVal v).length < 2 ^ 32) :
    readBlock (le32 (encVal v).length ++ encVal v) = some (v, []) := by
  have hx := readBlock_enc v [] h
  rwa [List.append_nil] at hx

set_option maxHeartbeats 1600000 in
/-- What `_read` recovers from any byte string `_write` produces when
the analysis is present: analysis, video, shader and style survive;
transitions survive only alongside video; created_at and version are
reset to their defaults. -/
theorem synth_write_read (s : SynthFile) (a : MusicAnalysis) (B : List ℕ)
    (ha : s.analysis = some a) (hw : synth_write s = some B) :
    synth_read B =
      some { analysis := some a,
             video_segments := s.video_segments,
             transitions :=
               if s.video_segments.isEmpty then [] else s.transitions,
             shader_curves := s.shader_curves,
             style_name := s.style_name,
             style_params := s.style_params } := by
  cases hv : s.video_segments with
  | nil =>
    cases hsc : s.shader_curves with
    | none =>
      conv at hw =>
        lhs
        rw [synth_write]
        simp only [hv, hsc, List.isEmpty_nil, eq_self_iff_true, if_true,
          serialize_analysis_some s a ha, Option.isSome_none,
          Bool.false_eq_true, if_false, pure_bind, Nat.add_zero]
      by_cases hA : (encVal (MsgValue.map (analysisKVs a))).length < 2 ^ 32
      · by_cases hS : (encVal (styleVal s)).length < 2 ^ 32
        · simp only [pack32, if_pos hA, if_pos hS, Option.pure_def,
            Option.bind_eq_bind', Option.some_bind] at hw
          obtain rfl : _ = B := Option.some.inj hw
          simp only [hv, hsc, List.append_nil, List.append_assoc]
          rw [synth_read_steps, readU32_le32 0 (by norm_num)]
          simp only [Option.some_bind]
          rw [readBlock_enc (.map (analysisKVs a)) _ hA]
          simp only [Option.some_bind]
          rw [readAnalysis_kvs]
          simp only [Option.some_bind, reduceIte]
          rw [readBlock_enc_nil (styleVal s) hS]
          simp only [Option.some_bind]
          rfl
        · simp only [pack32, if_pos hA, if_neg hS, Option.pure_def,
            Option.bind_eq_bind', Option.some_bind, Option.none_bind] at hw
          exact Option.noConfusion hw
      · simp only [pack32, if_neg hA, Option.pure_def,
          Option.bind_eq_bind', Option.none_bind] at hw
        exact Option.noConfusion hw
    | some sc =>
      conv at hw =>
        lhs
        rw [synth_write]
        simp only [hv, hsc, List.isEmpty_nil, eq_self_iff_true, if_true,
          serialize_analysis_some s a ha, Option.isSome_some,
          Bool.false_eq_true, if_false, pure_bind, Nat.zero_add]
      by_cases hA : (encVal (MsgValue.map (analysisKVs a))).length < 2 ^ 32
      · by_cases hB : (encVal (shaderToMsg sc)).length < 2 ^ 32
        · by_cases hS : (encVal (styleVal s)).length < 2 ^ 32
          · simp only [pack32, if_pos hA, if_pos hB, if_pos hS,
              Option.pure_def, Option.bind_eq_bind', Option.some_bind] at hw
            obtain rfl : _ = B := Option.some.inj hw
            simp only [hv, hsc, List.append_nil, List.append_assoc]
            rw [synth_read_steps, readU32_le32 2 (by norm_num)]
            simp only [Option.some_bind]
            rw [readBlock_enc (.map (analysisKVs a)) _ hA]
            simp only [Option.some_bind]
            rw [readAnalysis_kvs]
            simp only [Option.some_bind, reduceIte]
            rw [readBlock_enc (shaderToMsg sc) _ hB]
            simp only [Option.some_bind]
            rw [parseShader_toMsg]
            simp only [Option.some_bind]
            rw [readBlock_enc_nil (styleVal s) hS]
            simp only [Option.some_bind]
            rfl
          · simp only [pack32, if_pos hA, if_pos hB, if_neg hS,
              Option.pure_def, Option.bind_eq_bind', Option.some_bind,
              Option.none_bind] at hw
            exact Option.noConfusion hw
        · simp only [pack32, if_pos hA, if_neg hB, Option.pure_def,
            Option.bind_eq_bind', Option.some_bind, Option.none_bind] at hw
          exact Option.noConfusion hw
      · simp only [pack32, if_neg hA, Option.pure_def,
          Option.bind_eq_bind', Option.none_bind] at hw
        exact Option.noConfusion hw
  | cons v0 vtl =>
    cases hsc : s.shader_curves with
    | none =>
      conv at hw =>
        lhs
        rw [synth_write]
        simp only [hv, hsc, List.isEmpty_cons, eq_self_iff_true, if_true,
          serialize_analysis_some s a ha, Option.isSome_none,
          Bool.false_eq_true, if_false, pure_bind, Nat.add_zero]
      by_cases hA : (encVal (MsgValue.map (analysisKVs a))).length < 2 ^ 32
      · by_cases hV : (encVal (.arr ((v0 :: vtl).map videoToMsg))).length < 2 ^ 32
        · by_cases hT : (encVal (.arr (s.transitions.map transToMsg))).length < 2 ^ 32
          · by_cases hS : (encVal (styleVal s)).length < 2 ^ 32
            · simp only [pack32, if_pos hA, if_pos hV, if_pos hT, if_pos hS,
                Option.pure_def, Option.bind_eq_bind', Option.some_bind] at hw
              obtain rfl : _ = B := Option.some.inj hw
              simp only [hv, hsc, List.append_nil, List.append_assoc]
              rw [synth_read_steps, readU32_le32 1 (by norm_num)]
              simp only [Option.some_bind]
              rw [readBlock_enc (.map (analysisKVs a)) _ hA]
              simp only [Option.some_bind]
              rw [readAnalysis_kvs]
              simp only [Option.some_bind, reduceIte]
              rw [readBlock_enc (.arr ((v0 :: vtl).map videoToMsg)) _ hV]
              simp only [asArr, Option.some_bind]
              rw [seqOpt_parseVideo]
              simp only [Option.some_bind]
              rw [readBlock_enc (.arr (s.transitions.map transToMsg)) _ hT]
              simp only [asArr, Option.some_bind]
              rw [seqOpt_parseTrans]
              simp only [Option.some_bind]
              rw [readBlock_enc_nil (styleVal s) hS]
              simp only [Option.some_bind]
              rfl
            · simp only [pack32, if_pos hA, if_pos hV, if_pos hT, if_neg hS,
                Option.pure_def, Option.bind_eq_bind', Option.some_bind,
                Option.none_bind] at hw
              exact Option.noConfusion hw
          · simp only [pack32, if_pos hA, if_pos hV, if_neg hT,
              Option.pure_def, Option.bind_eq_bind', Option.some_bind,
              Option.none_bind] at hw
            exact Option.noConfusion hw
        · simp only [pack32, if_pos hA, if_neg hV, Option.pure_def,
            Option.bind_eq_bind', Option.some_bind, Option.none_bind] at hw
          exact Option.noConfusion hw
      · simp only [pack32, if_neg hA, Option.pure_def,
          Option.bind_eq_bind', Option.none_bind] at hw
        exact Option.noConfusion hw
    | some sc =>
      conv at hw =>
        lhs
        rw [synth_write]
        simp only [hv, hsc, List.isEmpty_cons, eq_self_iff_true, if_true,
          serialize_analysis_some s a ha, Option.isSome_some,
          Bool.false_eq_true, if_false, pure_bind]
      by_cases hA : (encVal (MsgValue.map (analysisKVs a))).length < 2 ^ 32
      · by_cases hV : (encVal (.arr ((v0 :: vtl).map videoToMsg))).length < 2 ^ 32
        · by_cases hT : (encVal (.arr (s.transitions.map transToMsg))).length < 2 ^ 32
          · by_cases hB : (encVal (shaderToMsg sc)).length < 2 ^ 32
            · by_cases hS : (encVal (styleVal s)).length < 2 ^ 32
              · simp only [pack32, if_pos hA, if_pos hV, if_pos hT,
                  if_pos hB, if_pos hS, Option.pure_def,
                  Option.bind_eq_bind', Option.some_bind] at hw
                obtain rfl : _ = B := Option.some.inj hw
                simp only [hv, hsc, List.append_nil, List.append_assoc]
                rw [synth_read_steps, readU32_le32 (1 + 2) (by norm_num)]
                simp only [Option.some_bind]
                rw [readBlock_enc (.map (analysisKVs a)) _ hA]
                simp only [Option.some_bind]
                rw [readAnalysis_kvs]
                simp only [Option.some_bind, reduceIte]
                rw [readBlock_enc (.arr ((v0 :: vtl).map videoToMsg)) _ hV]
                simp only [asArr, Option.some_bind]
                rw [seqOpt_parseVideo]
                simp only [Option.some_bind]
                rw [readBlock_enc (.arr (s.transitions.map transToMsg)) _ hT]
                simp only [asArr, Option.some_bind]
                rw [seqOpt_parseTrans]
                simp only [Option.some_bind]
                rw [readBlock_enc (shaderToMsg sc) _ hB]
                simp only [Option.some_bind]
                rw [parseShader_toMsg]
                simp only [Option.some_bind]
                rw [readBlock_enc_nil (styleVal s) hS]
                simp only [Option.some_bind]
                rfl
              · simp only [pack32, if_pos hA, if_pos hV, if_pos hT,
                  if_pos hB, if_neg hS, Option.pure_def,
                  Option.bind_eq_bind', Option.some_bind,
                  Option.none_bind] at hw
                exact Option.noConfusion hw
            · simp only [pack32, if_pos hA, if_pos hV, if_pos hT, if_neg hB,
                Option.pure_def, Option.bind_eq_bind', Option.some_bind,
                Option.none_bind] at hw
              exact Option.noConfusion hw
          · simp only [pack32, if_pos hA, if_pos hV, if_neg hT,
              Option.pure_def, Option.bind_eq_bind', Option.some_bind,
              Option.none_bind] at hw
            exact Option.noConfusion hw
        · simp only [pack32, if_pos hA, if_neg hV, Option.pure_def,
            Option.bind_eq_bind', Option.some_bind, Option.none_bind] at hw
          exact Option.noConfusion hw
      · simp only [pack32, if_neg hA, Option.pure_def,
          Option.bind_eq_bind', Option.none_bind] at hw
        exact Option.noConfusion hw

/-- The encoder output depends only on the serialized fields (and on
transitions only when video segments are present). -/
theorem synth_write_congr (s t : SynthFile)
    (h1 : t.analysis = s.analysis)
    (h2 : t.video_segments = s.video_segments)
    (h3 : t.video_segments ≠ [] → t.transitions = s.transitions)
    (h4 : t.shader_curves = s.shader_curves)
    (h5 : t.style_name = s.style_name)
    (h6 : t.style_params = s.style_params) :
    synth_write t = synth_write s := by
  have hser : serialize_analysis t = serialize_analysis s := by
    unfold serialize_analysis
    rw [h1]
  have hsty : styleVal t = styleVal s := by
    unfold styleVal
    rw [h5, h6]
  unfold synth_write
  rw [hser, hsty, h2, h4]
  cases hv2 : s.video_segments with
  | nil => rfl
  | cons x xs =>
      have h3x : t.transitions = s.transitions := by
        refine h3 ?_
        rw [h2, hv2]
        exact List.cons_ne_nil x xs
      rw [h3x]

set_option maxRecDepth 1000000 in
theorem exB_spec : synth_write exS = some exB := rfl

set_option maxRecDepth 1000000 in
theorem exRead_spec : synth_read exB = some exS := rfl

set_option maxRecDepth 1000000 in
theorem exB9_spec : synth_write exS9 = some exB9 := rfl

set_option maxRecDepth 1000000 in
theorem exB10_spec : synth_write exS10 = some exB10 := rfl

theorem MAGIC_length : MAGIC.length = 8 := rfl

theorem le32_length (n : ℕ) : (le32 n).length = 4 := rfl

theorem synth_read_bad_magic (bs : List ℕ) (h : bs.take 8 ≠ MAGIC) :
    synth_read bs = none := by
  unfold synth_read
  rw [if_neg h]

theorem synth_read_take8 (r : List ℕ) (k : ℕ) (hk : k < 8) :
    synth_read ((MAGIC ++ r).take k) = none := by
  rw [List.take_append_of_le_length (by rw [MAGIC_length]; omega)]
  apply synth_read_bad_magic
  intro hEq
  have hlen := congrArg List.length hEq
  rw [List.length_take, List.length_take, MAGIC_length] at hlen
  omega

theorem readU32_short (bs : List ℕ) (h : bs.length < 4) :
    readU32 bs = none := by
  cases bs with
  | nil => rfl
  | cons a t1 =>
    cases t1 with
    | nil => rfl
    | cons b t2 =>
      cases t2 with
      | nil => rfl
      | cons c t3 =>
        cases t3 with
        | nil => rfl
        | cons d t4 => simp [List.length_cons] at h; omega

theorem readU32_le32_take (n : ℕ) (hn : n < 2 ^ 32) (r : List ℕ) (m : ℕ)
    (hm : 4 ≤ m) :
    readU32 ((le32 n ++ r).take m) = some (n, r.take (m - 4)) := by
  rw [List.take_append_eq_append_take,
    List.take_of_length_le (by rw [le32_length]; omega), le32_length]
  exact readU32_le32 n hn _

theorem readBlock_take (v : MsgValue) (T : List ℕ) (m : ℕ)
    (hlen : (encVal v).length < 2 ^ 32) :
    readBlock ((le32 (encVal v).length ++ (encVal v ++ T)).take m) =
      if 4 + (encVal v).length ≤ m then
        some (v, T.take (m - 4 - (encVal v).length))
      else none := by
  by_cases hm4 : 4 ≤ m
  · rw [readBlock, readU32_le32_take _ hlen _ _ hm4]
    simp only [Option.some_bind, List.take_take, List.drop_take,
      List.drop_left]
    by_cases hL : (encVal v).length ≤ m - 4
    · simp only [min_eq_left hL, List.take_left]
      rw [unpackb_encVal, Option.map_some']
      rw [if_pos (by omega)]
    · simp only [min_eq_right (by omega : m - 4 ≤ (encVal v).length)]
      rw [List.take_append_of_le_length (by omega)]
      rw [unpackb_prefix_none v _ ((encVal v).drop (m - 4))
        (List.take_append_drop _ _) (by
          intro hnil
          rw [List.drop_eq_nil_iff] at hnil
          omega)]
      rw [Option.map_none']
      rw [if_neg (by omega)]
  · rw [readBlock, readU32_short _ (by
      have hle := List.length_take_le m
        (le32 (encVal v).length ++ (encVal v ++ T))
      omega)]
    simp only [Option.none_bind]
    rw [if_neg (by omega)]

theorem readBlock_take_nil (v : MsgValue) (m : ℕ)
    (hlen : (encVal v).length < 2 ^ 32) :
    readBlock ((le32 (encVal v).length ++ encVal v).take m) =
      if 4 + (encVal v).length ≤ m then some (v, []) else none := by
  have h := readBlock_take v [] m hlen
  rw [List.append_nil] at h
  rw [h]
  by_cases hc : 4 + (encVal v).length ≤ m
  · rw [if_pos hc, if_pos hc, List.take_nil]
  · rw [if_neg hc, if_neg hc]

/-- C2: writing a SynthFile whose analysis is present and reading the
bytes back reproduces every MusicAnalysis field exactly; the
rational-number model of Python floats makes equality exact, which is
stronger than the 1e-6 relative tolerance the claim allows. -/
theorem analysis_roundtrip (s : SynthFile) (a : MusicAnalysis)
    (B : List ℕ) (ha : s.analysis = some a)
    (hw : synth_write s = some B) :
    ∃ t : SynthFile, synth_read B = some t ∧ t.analysis = some a :=
  ⟨_, synth_write_read s a B ha hw, rfl⟩

theorem analysis_roundtrip_witness :
    ∃ t : SynthFile, synth_read exB = some t ∧ t.analysis = some exA :=
  analysis_roundtrip exS exA exB rfl exB_spec

/-- C6 (amended): re-encoding the SynthFile decoded from an
encoder-produced artifact reproduces that artifact byte-identically. -/
theorem reencode_written (s : SynthFile) (a : MusicAnalysis) (B : List ℕ)
    (t : SynthFile) (ha : s.analysis = some a)
    (hw : synth_write s = some B) (hr : synth_read B = some t) :
    synth_write t = some B := by
  have h := synth_write_read s a B ha hw
  have ht : t = _ := Option.some.inj (hr.symm.trans h)
  subst ht
  rw [← hw]
  refine synth_write_congr s _ ha.symm rfl ?_ rfl rfl rfl
  intro hne
  simp only []
  cases hvz : s.video_segments with
  | nil => exact absurd hvz hne
  | cons x xs => simp [hvz]

set_option maxRecDepth 1000000 in
/-- C6 counterexample: a successfully decoding byte string that
decode-then-re-encode does not reproduce. `_read` never looks at bytes
after the style block, so `exB ++ [7]` decodes to the same SynthFile as
`exB` (same optional-block set: no video, no shader in either), which
re-encodes to `exB`, not `exB ++ [7]`. -/
theorem reencode_not_identical :
    (∃ t : SynthFile, synth_read (exB ++ [7]) = some t ∧
      synth_write t = some exB) ∧ exB ++ [7] ≠ exB :=
  ⟨⟨exS, rfl, exB_spec⟩, fun h => by simpa using congrArg List.length h⟩

theorem reencode_written_witness : synth_write exS = some exB :=
  reencode_written exS exA exB exS rfl exB_spec exRead_spec

/-- C9: created_at and version are never written to the artifact, so
decoding the encoding of any SynthFile (whose analysis is present; with
no analysis the decode itself fails) yields an empty created_at and
version (1, 0) regardless of the values carried before saving. -/
theorem version_created_at_reset (s : SynthFile) (a : MusicAnalysis)
    (B : List ℕ) (ha : s.analysis = some a)
    (hw : synth_write s = some B) :
    ∃ t : SynthFile, synth_read B = some t ∧
      t.created_at = "" ∧ t.version = (1, 0) :=
  ⟨_, synth_write_read s a B ha hw, rfl, rfl⟩

theorem version_created_at_reset_witness :
    ∃ t : SynthFile, synth_read exB9 = some t ∧
      t.created_at = "" ∧ t.version = (1, 0) :=
  version_created_at_reset exS9 exA exB9 rfl exB9_spec

/-- C10: with empty video_segments the encoder clears flags bit0 and
writes neither the video nor the transitions block, so decoding the
encoding of a SynthFile with empty video_segments and non-empty
transitions yields an empty transitions list: the transitions are
silently dropped. -/
theorem transitions_dropped (s : SynthFile) (a : MusicAnalysis)
    (B : List ℕ) (ha : s.analysis = some a)
    (hv : s.video_segments = []) (ht : s.transitions ≠ [])
    (hw : synth_write s = some B) :
    ∃ t : SynthFile, synth_read B = some t ∧ t.transitions = [] := by
  refine ⟨_, synth_write_read s a B ha hw, ?_⟩
  simp [hv]

theorem transitions_dropped_witness :
    ∃ t : SynthFile, synth_read exB10 = some t ∧ t.transitions = [] :=
  transitions_dropped exS10 exA exB10 rfl rfl
    (List.cons_ne_nil exTr []) exB10_spec

set_option maxHeartbeats 4000000 in
/-- C4: decoding any strict truncation of a validly encoded artifact
fails (`none`, the model of the load-time exception) rather than
returning a partially populated SynthFile, and decoding any input whose
first 8 bytes differ from the magic fails as well. -/
theorem truncated_read_fails (s : SynthFile) (a : MusicAnalysis)
    (B : List ℕ) (ha : s.analysis = some a)
    (hw : synth_write s = some B) :
    (∀ k, k < B.length → synth_read (B.take k) = none) ∧
    (∀ bs : List ℕ, bs.take 8 ≠ MAGIC → synth_read bs = none) := by
  refine ⟨?_, fun bs hb => synth_read_bad_magic bs hb⟩
  intro k hk
  cases hv : s.video_segments with
  | nil =>
    cases hsc : s.shader_curves with
    | none =>
      conv at hw =>
        lhs
        rw [synth_write]
        simp only [hv, hsc, List.isEmpty_nil, eq_self_iff_true, if_true,
          serialize_analysis_some s a ha, Option.isSome_none,
          Bool.false_eq_true, if_false, pure_bind, Nat.add_zero]
      by_cases hA : (encVal (MsgValue.map (analysisKVs a))).length < 2 ^ 32
      · by_cases hS : (encVal (styleVal s)).length < 2 ^ 32
        · simp only [pack32, if_pos hA, if_pos hS, Option.pure_def,
            Option.bind_eq_bind', Option.some_bind] at hw
          obtain rfl : _ = B := Option.some.inj hw
          simp only [List.append_nil, List.length_append, MAGIC_length,
            le32_length] at hk
          simp only [List.append_nil, List.append_assoc]
          by_cases hk8 : k < 8
          · exact synth_read_take8 _ _ hk8
          · rw [List.take_append_eq_append_take,
              List.take_of_length_le (by rw [MAGIC_length]; omega), MAGIC_length,
              synth_read_steps]
            by_cases hk12 : k - 8 < 4
            · rw [readU32_short _ (lt_of_le_of_lt (List.length_take_le _ _) hk12)]
              simp only [Option.none_bind]
            · rw [readU32_le32_take 0 (by norm_num) _ _ (by omega)]
              simp only [Option.some_bind]
              rw [readBlock_take _ _ _ hA]
              by_cases h1 : 4 + (encVal (MsgValue.map (analysisKVs a))).length ≤ k - 8 - 4
              · rw [if_pos h1]
                simp only [Option.some_bind]
                rw [readAnalysis_kvs]
                simp only [Option.some_bind, Nat.reduceAdd, Nat.reduceMod,
                    Nat.reduceDiv, Nat.reduceEqDiff, reduceIte]
                rw [readBlock_take_nil _ _ hS]
                rw [if_neg (by omega : ¬ (4 + (encVal (styleVal s)).length ≤
                  k - 8 - 4 - 4 - (encVal (MsgValue.map (analysisKVs a))).length))]
                rfl
              · rw [if_neg h1]
                rfl
        · simp only [pack32, if_pos hA, if_neg hS, Option.pure_def,
            Option.bind_eq_bind', Option.some_bind, Option.none_bind] at hw
          exact Option.noConfusion hw
      · simp only [pack32, if_neg hA, Option.pure_def,
          Option.bind_eq_bind', Option.none_bind] at hw
        exact Option.noConfusion hw
    | some sc =>
      conv at hw =>
        lhs
        rw [synth_write]
        simp only [hv, hsc, List.isEmpty_nil, eq_self_iff_true, if_true,
          serialize_analysis_some s a ha, Option.isSome_some,
          Bool.false_eq_true, if_false, pure_bind, Nat.zero_add]
      by_cases hA : (encVal (MsgValue.map (analysisKVs a))).length < 2 ^ 32
      · by_cases hB : (encVal (shaderToMsg sc)).length < 2 ^ 32
        · by_cases hS : (encVal (styleVal s)).length < 2 ^ 32
          · simp only [pack32, if_pos hA, if_pos hB, if_pos hS,
              Option.pure_def, Option.bind_eq_bind', Option.some_bind] at hw
            obtain rfl : _ = B := Option.some.inj hw
            simp only [List.append_nil, List.length_append, MAGIC_length,
              le32_length] at hk
            simp only [List.append_nil, List.append_assoc]
            by_cases hk8 : k < 8
            · exact synth_read_take8 _ _ hk8
            · rw [List.take_append_eq_append_take,
                List.take_of_length_le (by rw [MAGIC_length]; omega), MAGIC_length,
                synth_read_steps]
              by_cases hk12 : k - 8 < 4
              · rw [readU32_short _ (lt_of_le_of_lt (List.length_take_le _ _) hk12)]
                simp only [Option.none_bind]
              · rw [readU32_le32_take 2 (by norm_num) _ _ (by omega)]
                simp only [Option.some_bind]
                rw [readBlock_take _ _ _ hA]
                by_cases h1 : 4 + (encVal (MsgValue.map (analysisKVs a))).length ≤ k - 8 - 4
                · rw [if_pos h1]
                  simp only [Option.some_bind]
                  rw [readAnalysis_kvs]
                  simp only [Option.some_bind, Nat.reduceAdd, Nat.reduceMod,
                      Nat.reduceDiv, Nat.reduceEqDiff, reduceIte]
                  rw [readBlock_take _ _ _ hB]
                  by_cases hx1 : 4 + (encVal (shaderToMsg sc)).length ≤ k - 8 - 4 - 4 - (encVal (MsgValue.map (analysisKVs a))).length
                  · rw [if_pos hx1]
                    simp only [Option.some_bind]
                    rw [parseShader_toMsg]
                    simp only [Option.some_bind]
                    rw [readBlock_take_nil _ _ hS]
                    rw [if_neg (by omega : ¬ (4 + (encVal (styleVal s)).length ≤
                      k - 8 - 4 - 4 - (encVal (MsgValue.map (analysisKVs a))).length - 4 - (encVal (shaderToMsg sc)).length))]
                    rfl
                  · rw [if_neg hx1]
                    rfl
                · rw [if_neg h1]
                  rfl
          · simp only [pack32, if_pos hA, if_pos hB, if_neg hS,
              Option.pure_def, Option.bind_eq_bind', Option.some_bind,
              Option.none_bind] at hw
            exact Option.noConfusion hw
        · simp only [pack32, if_pos hA, if_neg hB, Option.pure_def,
            Option.bind_eq_bind', Option.some_bind, Option.none_bind] at hw
          exact Option.noConfusion hw
      · simp only [pack32, if_neg hA, Option.pure_def,
          Option.bind_eq_bind', Option.none_bind] at hw
        exact Option.noConfusion hw
  | cons v0 vtl =>
    cases hsc : s.shader_curves with
    | none =>
      conv at hw =>
        lhs
        rw [synth_write]
        simp only [hv, hsc, List.isEmpty_cons, eq_self_iff_true, if_true,
          serialize_analysis_some s a ha, Option.isSome_none,
          Bool.false_eq_true, if_false, pure_bind, Nat.add_zero]
      by_cases hA : (encVal (MsgValue.map (analysisKVs a))).length < 2 ^ 32
      · by_cases hV : (encVal (MsgValue.arr ((v0 :: vtl).map videoToMsg))).length < 2 ^ 32
        · by_cases hT : (encVal (MsgValue.arr (s.transitions.map transToMsg))).length < 2 ^ 32
          · by_cases hS : (encVal (styleVal s)).length < 2 ^ 32
            · simp only [pack32, if_pos hA, if_pos hV, if_pos hT, if_pos hS,
                Option.pure_def, Option.bind_eq_bind', Option.some_bind] at hw
              obtain rfl : _ = B := Option.some.inj hw
              simp only [List.append_nil, List.length_append, MAGIC_length,
                le32_length] at hk
              simp only [List.append_nil, List.append_assoc]
              by_cases hk8 : k < 8
              · exact synth_read_take8 _ _ hk8
              · rw [List.take_append_eq_append_take,
                  List.take_of_length_le (by rw [MAGIC_length]; omega), MAGIC_length,
                  synth_read_steps]
                by_cases hk12 : k - 8 < 4
                · rw [readU32_short _ (lt_of_le_of_lt (List.length_take_le _ _) hk12)]
                  simp only [Option.none_bind]
                · rw [readU32_le32_take 1 (by norm_num) _ _ (by omega)]
                  simp only [Option.some_bind]
                  rw [readBlock_take _ _ _ hA]
                  by_cases h1 : 4 + (encVal (MsgValue.map (analysisKVs a))).length ≤ k - 8 - 4
                  · rw [if_pos h1]
                    simp only [Option.some_bind]
                    rw [readAnalysis_kvs]
                    simp only [Option.some_bind, Nat.reduceAdd, Nat.reduceMod,
                        Nat.reduceDiv, Nat.reduceEqDiff, reduceIte]
                    rw [readBlock_take _ _ _ hV]
                    by_cases hx2 : 4 + (encVal (MsgValue.arr ((v0 :: vtl).map videoToMsg))).length ≤ k - 8 - 4 - 4 - (encVal (MsgValue.map (analysisKVs a))).length
                    · rw [if_pos hx2]
                      simp only [Option.some_bind, asArr]
                      rw [seqOpt_parseVideo]
                      simp only [Option.some_bind]
                      rw [readBlock_take _ _ _ hT]
                      by_cases hx1 : 4 + (encVal (MsgValue.arr (s.transitions.map transToMsg))).length ≤ k - 8 - 4 - 4 - (encVal (MsgValue.map (analysisKVs a))).length - 4 - (encVal (MsgValue.arr ((v0 :: vtl).map videoToMsg))).length
                      · rw [if_pos hx1]
                        simp only [Option.some_bind, asArr]
                        rw [seqOpt_parseTrans]
                        simp only [Option.some_bind]
                        rw [readBlock_take_nil _ _ hS]
                        rw [if_neg (by omega : ¬ (4 + (encVal (styleVal s)).length ≤
                          k - 8 - 4 - 4 - (encVal (MsgValue.map (analysisKVs a))).length - 4 - (encVal (MsgValue.arr ((v0 :: vtl).map videoToMsg))).length - 4 - (encVal (MsgValue.arr (s.transitions.map transToMsg))).length))]
                        rfl
                      · rw [if_neg hx1]
                        rfl
                    · rw [if_neg hx2]
                      rfl
                  · rw [if_neg h1]
                    rfl
            · simp only [pack32, if_pos hA, if_pos hV, if_pos hT, if_neg hS,
                Option.pure_def, Option.bind_eq_bind', Option.some_bind,
                Option.none_bind] at hw
              exact Option.noConfusion hw
          · simp only [pack32, if_pos hA, if_pos hV, if_neg hT,
              Option.pure_def, Option.bind_eq_bind', Option.some_bind,
              Option.none_bind] at hw
            exact Option.noConfusion hw
        · simp only [pack32, if_pos hA, if_neg hV, Option.pure_def,
            Option.bind_eq_bind', Option.some_bind, Option.none_bind] at hw
          exact Option.noConfusion hw
      · simp only [pack32, if_neg hA, Option.pure_def,
          Option.bind_eq_bind', Option.none_bind] at hw
        exact Option.noConfusion hw
    | some sc =>
      conv at hw =>
        lhs
        rw [synth_write]
        simp only [hv, hsc, List.isEmpty_cons, eq_self_iff_true, if_true,
          serialize_analysis_some s a ha, Option.isSome_some,
          Bool.false_eq_true, if_false, pure_bind]
      by_cases hA : (encVal (MsgValue.map (analysisKVs a))).length < 2 ^ 32
      · by_cases hV : (encVal (MsgValue.arr ((v0 :: vtl).map videoToMsg))).length < 2 ^ 32
        · by_cases hT : (encVal (MsgValue.arr (s.transitions.map transToMsg))).length < 2 ^ 32
          · by_cases hB : (encVal (shaderToMsg sc)).length < 2 ^ 32
            · by_cases hS : (encVal (styleVal s)).length < 2 ^ 32
              · simp only [pack32, if_pos hA, if_pos hV, if_pos hT,
                  if_pos hB, if_pos hS, Option.pure_def,
                  Option.bind_eq_bind', Option.some_bind] at hw
                obtain rfl : _ = B := Option.some.inj hw
                simp only [List.append_nil, List.length_append, MAGIC_length,
                  le32_length] at hk
                simp only [List.append_nil, List.append_assoc]
                by_cases hk8 : k < 8
                · exact synth_read_take8 _ _ hk8
                · rw [List.take_append_eq_append_take,
                    List.take_of_length_le (by rw [MAGIC_length]; omega), MAGIC_length,
                    synth_read_steps]
                  by_cases hk12 : k - 8 < 4
                  · rw [readU32_short _ (lt_of_le_of_lt (List.length_take_le _ _) hk12)]
                    simp only [Option.none_bind]
                  · rw [readU32_le32_take (1 + 2) (by norm_num) _ _ (by omega)]
                    simp only [Option.some_bind]
                    rw [readBlock_take _ _ _ hA]
                    by_cases h1 : 4 + (encVal (MsgValue.map (analysisKVs a))).length ≤ k - 8 - 4
                    · rw [if_pos h1]
                      simp only [Option.some_bind]
                      rw [readAnalysis_kvs]
                      simp only [Option.some_bind, Nat.reduceAdd, Nat.reduceMod,
                          Nat.reduceDiv, Nat.reduceEqDiff, reduceIte]
                      rw [readBlock_take _ _ _ hV]
                      by_cases hx3 : 4 + (encVal (MsgValue.arr ((v0 :: vtl).map videoToMsg))).length ≤ k - 8 - 4 - 4 - (encVal (MsgValue.map (analysisKVs a))).length
                      · rw [if_pos hx3]
                        simp only [Option.some_bind, asArr]
                        rw [seqOpt_parseVideo]
                        simp only [Option.some_bind]
                        rw [readBlock_take _ _ _ hT]
                        by_cases hx2 : 4 + (encVal (MsgValue.arr (s.transitions.map transToMsg))).length ≤ k - 8 - 4 - 4 - (encVal (MsgValue.map (analysisKVs a))).length - 4 - (encVal (MsgValue.arr ((v0 :: vtl).map videoToMsg))).length
                        · rw [if_pos hx2]
                          simp only [Option.some_bind, asArr]
                          rw [seqOpt_parseTrans]
                          simp only [Option.some_bind]
                          rw [readBlock_take _ _ _ hB]
                          by_cases hx1 : 4 + (encVal (shaderToMsg sc)).length ≤ k - 8 - 4 - 4 - (encVal (MsgValue.map (analysisKVs a))).length - 4 - (encVal (MsgValue.arr ((v0 :: vtl).map videoToMsg))).length - 4 - (encVal (MsgValue.arr (s.transitions.map transToMsg))).length
                          · rw [if_pos hx1]
                            simp only [Option.some_bind]
                            rw [parseShader_toMsg]
                            simp only [Option.some_bind]
                            rw [readBlock_take_nil _ _ hS]
                            rw [if_neg (by omega : ¬ (4 + (encVal (styleVal s)).length ≤
                              k - 8 - 4 - 4 - (encVal (MsgValue.map (analysisKVs a))).length - 4 - (encVal (MsgValue.arr ((v0 :: vtl).map videoToMsg))).length - 4 - (encVal (MsgValue.arr (s.transitions.map transToMsg))).length - 4 - (encVal (shaderToMsg sc)).length))]
                            rfl
                          · rw [if_neg hx1]
                            rfl
                        · rw [if_neg hx2]
                          rfl
                      · rw [if_neg hx3]
                        rfl
                    · rw [if_neg h1]
                      rfl
              · simp only [pack32, if_pos hA, if_pos hV, if_pos hT,
                  if_pos hB, if_neg hS, Option.pure_def,
                  Option.bind_eq_bind', Option.some_bind,
                  Option.none_bind] at hw
                exact Option.noConfusion hw
            · simp only [pack32, if_pos hA, if_pos hV, if_pos hT, if_neg hB,
                Option.pure_def, Option.bind_eq_bind', Option.some_bind,
                Option.none_bind] at hw
              exact Option.noConfusion hw
          · simp only [pack32, if_pos hA, if_pos hV, if_neg hT,
              Option.pure_def, Option.bind_eq_bind', Option.some_bind,
              Option.none_bind] at hw
            exact Option.noConfusion hw
        · simp only [pack32, if_pos hA, if_neg hV, Option.pure_def,
            Option.bind_eq_bind', Option.some_bind, Option.none_bind] at hw
          exact Option.noConfusion hw
      · simp only [pack32, if_neg hA, Option.pure_def,
          Option.bind_eq_bind', Option.none_bind] at hw
        exact Option.noConfusion hw

set_option maxRecDepth 1000000 in
theorem truncated_read_fails_witness :
    synth_read (exB.take (exB.length - 4)) = none ∧
    synth_read [0] = none := by
  have h := truncated_read_fails exS exA exB rfl exB_spec
  exact ⟨h.1 _ (by decide), h.2 [0] (by decide)⟩
